import Mathlib

/-! # The scrape pipeline of `src/server.js`

A shallow embedding of the `POST /scrape` handler and of the helpers it calls.

* JavaScript strings are Lean strings, handled through their character lists.  Every
  character test made by the program (a literal ASCII prefix, an ASCII needle, the class
  `\d`, the white space removed by `trim`) gives the same answer on code points as on
  UTF-16 code units.
* The remote browser is an explicit `World`: the outcome of every awaited call, the pages
  that get loaded, and the value drawn by `Math.random()`.
* A run of the handler is the list of calls it makes, in order, the response being one of
  them (`res.json` is called inside the `try`/`catch`, before the `finally` block runs).
-/

namespace PuppeteerApi

/-! ## JavaScript values -/

/-- A value as found in a parsed JSON body or in a local variable of the handler. -/
inductive JsVal where
  | undefined
  | null
  | bool (b : Bool)
  | num (q : ℚ)
  | str (s : String)
  | object (json : String)
  deriving DecidableEq

/-- The ToBoolean conversion: `undefined`, `null`, `false`, zero and the empty string are
falsy (a parsed JSON number is never NaN), every object or array is truthy. -/
def JsVal.truthy : JsVal → Bool
  | .undefined => false
  | .null => false
  | .bool b => b
  | .num q => decide (q ≠ 0)
  | .str s => decide (s ≠ "")
  | .object _ => true

/-- ToBoolean on a value that is either `null`/`undefined` (`none`) or a string. -/
def truthy : Option String → Bool
  | none => false
  | some s => decide (s ≠ "")

/-- The operator `a || b` on values that are `null` or strings. -/
def jsOr (a b : Option String) : Option String :=
  if truthy a then a else b

/-! ## Listing discovery (lines 85-99) -/

/-- The literal passed to `startsWith` on line 91. -/
def siteOrigin : String := "https://www.jamesedition.com"

/-- The method `String.prototype.startsWith`. -/
def startsWith (h p : String) : Bool := p.data.isPrefixOf h.data

/-- The pattern `\d+$` tried at the start of `cs`: one or more ASCII digits, then the end
of the input. -/
def matchDigitsToEnd : List Char → Bool
  | [] => false
  | c :: cs => c.isDigit && (cs.isEmpty || matchDigitsToEnd cs)

/-- The call `/\d+$/.test`: the pattern is not anchored on the left, so every start position is
tried in turn. -/
def testDigitsAtEnd : List Char → Bool
  | [] => false
  | c :: cs => matchDigitsToEnd (c :: cs) || testDigitsAtEnd cs

/-- The callback given to `filter` on lines 89-93:
`h && h.startsWith("https://www.jamesedition.com") && /\d+$/.test(h)`. -/
def listingFilter (h : String) : Bool :=
  decide (h ≠ "") && startsWith h siteOrigin && testDigitsAtEnd h.data

/-- The value of `links` (lines 85-94), given the `href` of every anchor of the page in
document order. -/
def links (hrefs : List String) : List String := hrefs.filter listingFilter

/-- The method `Set.prototype.add`: a value already present leaves the set as it is, a new value is
appended in insertion order. -/
def setAdd (acc : List String) (h : String) : List String :=
  if h ∈ acc then acc else acc ++ [h]

/-- The value of `unique`: `[...new Set(links)]` (line 96). -/
def unique (ls : List String) : List String := ls.foldl setAdd []

/-- The deduplicated candidate list computed from the anchors of the category page. -/
def candidates (hrefs : List String) : List String := unique (links hrefs)

/-- Lines 85-97 as a whole: the candidate list, or the error thrown on line 97. -/
def listingDiscovery (hrefs : List String) : Except String (List String) :=
  if (candidates hrefs).length = 0 then .error "No listings found"
  else .ok (candidates hrefs)

/-! ### The canonical listing URL of the specification -/

/-- The characters of `cs` before the first character satisfying `stop`. -/
def takeUntil (stop : Char → Bool) (cs : List Char) : List Char :=
  cs.takeWhile (fun c => !stop c)

/-- The authority component of an `https` URL: what stands between `https://` and the first
`/`, `?` or `#`. -/
def urlAuthority (h : String) : List Char :=
  takeUntil (fun c => c = '/' || c = '?' || c = '#') (h.data.drop 8)

/-- The path component of an `https` URL: what stands between the authority and the first
`?` or `#`. -/
def urlPath (h : String) : List Char :=
  takeUntil (fun c => c = '?' || c = '#')
    ((h.data.drop 8).dropWhile (fun c => !(c = '/' || c = '?' || c = '#')))

/-- Follows the specification's glossary: an absolute URL under the target site's origin
whose path ends in a numeric identifier. -/
def isCanonicalListingUrl (h : String) : Bool :=
  startsWith h "https://" &&
    decide (urlAuthority h = "www.jamesedition.com".data) &&
    (match (urlPath h).getLast? with
     | some c => c.isDigit
     | none => false)

/-! ## Random selection (line 99) -/

/-- A value returned by `Math.random()`: the binary64 number `mant / 2 ^ exp`.  Every double
`r` with `0 ≤ r < 1` has this form, with a significand below `2 ^ 53` and an exponent between
`53` and `1074`. -/
structure Draw where
  mant : Nat
  exp : Nat
  mant_lt : mant < 2 ^ 53
  exp_ge : 53 ≤ exp
  exp_le : exp ≤ 1074

/-- The real number a draw stands for. -/
def Draw.value (r : Draw) : ℚ := (r.mant : ℚ) / 2 ^ r.exp

/-- The quotient `a / 2 ^ s` rounded to the nearest integer, a tie going to the even
neighbour (the rounding mode of binary64 arithmetic). -/
def roundNearestEven (a s : Nat) : Nat :=
  let q := a / 2 ^ s
  let r := a % 2 ^ s
  if 2 * r < 2 ^ s then q
  else if 2 ^ s < 2 * r then q + 1
  else if q % 2 = 0 then q else q + 1

/-- The number of binary digits of `n`, with `fuel` bounding the recursion. -/
def bitLengthAux : Nat → Nat → Nat
  | 0, _ => 0
  | fuel + 1, n => if n = 0 then 0 else bitLengthAux fuel (n / 2) + 1

/-- The number of binary digits of `n`. -/
def bitLength (n : Nat) : Nat := bitLengthAux n n

/-- The binary64 product `Math.random() * unique.length`, as a numerator over `2 ^ exp`.
The exact product has numerator `mant * n`; it is a double when it fits in 53 bits, and is
otherwise rounded to 53 significant bits. -/
def mulDouble (mant n : Nat) : Nat :=
  let a := mant * n
  if a < 2 ^ 53 then a
  else roundNearestEven a (bitLength a - 53) * 2 ^ (bitLength a - 53)

/-- The index `Math.floor(Math.random() * unique.length)`. -/
def randomIndex (r : Draw) (n : Nat) : Nat := mulDouble r.mant n / 2 ^ r.exp

/-- The value of `chosen` (line 99): an element of the array, or `undefined` for an index
past its end. -/
def chosen (u : List String) (r : Draw) : JsVal :=
  match u[randomIndex r u.length]? with
  | some h => .str h
  | none => .undefined

/-! ## Block detection (lines 45-54) -/

/-- Whether `t` occurs in `cs` at some position, the positions being tried from the left. -/
def includesAt : List Char → List Char → Bool
  | [], t => t.isEmpty
  | c :: cs, t => t.isPrefixOf (c :: cs) || includesAt cs t

/-- The method `String.prototype.includes`. -/
def includes (s t : String) : Bool := includesAt s.data t.data

/-- The test of lines 47-51 on the page title. -/
def isBlockedTitle (title : String) : Bool :=
  includes title "Just a moment" || includes title "Cloudflare" || includes title "Verify"

/-! ## Field extraction (lines 110-132) -/

/-- The characters removed by `String.prototype.trim`: the WhiteSpace and LineTerminator
productions of ECMAScript. -/
def isJsWhiteSpace (c : Char) : Bool :=
  let n := c.toNat
  (9 ≤ n && n ≤ 13) || n == 32 || n == 160 || n == 0x1680 || (0x2000 ≤ n && n ≤ 0x200A) ||
    n == 0x2028 || n == 0x2029 || n == 0x202F || n == 0x205F || n == 0x3000 || n == 0xFEFF

/-- The method `String.prototype.trim`. -/
def trim (s : String) : String :=
  ⟨((s.data.dropWhile isJsWhiteSpace).reverse.dropWhile isJsWhiteSpace).reverse⟩

/-- What the extraction callback can read of a loaded listing page.  Each function gives
`none` when `querySelector` finds no element (or the element lacks the property). -/
structure ListingDom where
  /-- The value of `document.querySelector(sel)?.innerText`. -/
  innerText : String → Option String
  /-- The `content` of the first `meta[property="…"]` element. -/
  metaProperty : String → Option String
  /-- The `content` of the first `meta[name="…"]` element. -/
  metaName : String → Option String

/-- The helper `text` of lines 111-112. -/
def text (d : ListingDom) (sel : String) : Option String :=
  jsOr ((d.innerText sel).map trim) none

/-- The helper `meta` of lines 114-117. -/
def metaContent (d : ListingDom) (name : String) : Option String :=
  jsOr (jsOr (d.metaProperty name) (d.metaName name)) none

/-- The object returned by the extraction callback. -/
structure ExtractionResult where
  title : Option String
  description : Option String
  image : Option String
  url : Option String
  price : Option String
  deriving DecidableEq

/-- The extraction callback (lines 110-132). -/
def extract (d : ListingDom) : ExtractionResult :=
  let price :=
    jsOr (jsOr (jsOr (text d ".je2-listing-info__price span") (text d ".ListingCard__price"))
      (metaContent d "product:price:amount")) (metaContent d "og:price:amount")
  { title := jsOr (metaContent d "og:title") (text d "h1")
    description := metaContent d "og:description"
    image := metaContent d "og:image"
    url := metaContent d "og:url"
    price := price }

/-! ## Validation and response envelope (lines 134-144) -/

/-- The body of a JSON response. -/
inductive Body where
  /-- The object with `success: false` and an `error` text. -/
  | failure (error : String)
  /-- The object with `success: true` and the six fields of lines 138-143. -/
  | success (category website_link : JsVal) (caption description : Option String)
      (price : String) (images : List String)
  deriving DecidableEq

/-- The conversion `String(v)` of a value that is `null` or a string. -/
def jsString : Option String → String
  | none => "null"
  | some s => s

/-- The call `replace(/[^\d]/g, "")` on the characters of a string: every character matched by the
class `[^\d]` is replaced by the empty string, the others are copied. -/
def replaceNonDigits : List Char → List Char
  | [] => []
  | c :: cs => if c.isDigit then c :: replaceNonDigits cs else replaceNonDigits cs

/-- The expression `String(data.price).replace(/[^\d]/g, "")` of line 142. -/
def normalizePrice (price : Option String) : String :=
  ⟨replaceNonDigits (jsString price).data⟩

/-- The expression `data.url || chosen` of line 139. -/
def websiteLink (url : Option String) (chosenUrl : JsVal) : JsVal :=
  match url with
  | some u => if truthy (some u) then .str u else chosenUrl
  | none => chosenUrl

/-- The expression `data.image ? [data.image] : []` of line 143. -/
def imagesOf (image : Option String) : List String :=
  match image with
  | some i => if truthy (some i) then [i] else []
  | none => []

/-- Lines 134-144: the check of the mandatory fields, then the response envelope. -/
def normalize (category chosenUrl : JsVal) (data : ExtractionResult) : Except String Body :=
  if !truthy data.title || !truthy data.price then .error "Invalid listing data"
  else
    .ok (.success category (websiteLink data.url chosenUrl) data.title data.description
      (normalizePrice data.price) (imagesOf data.image))

/-! ## The remote browser and the handler (lines 59-155) -/

/-- A page as loaded by one `page.goto`: what the later calls on it return or throw. -/
structure Page where
  /-- The outcome of `page.title()`. -/
  title : Except String String
  /-- The outcome of reading `a.href` for every anchor, in document order (lines 85-87). -/
  hrefs : Except String (List String)
  /-- The outcome of reading the document in the extraction callback (line 110). -/
  listing : Except String ListingDom

/-- Everything outside the handler: the environment, the remote browser and the random
source.  An `Except.error msg` is a rejection whose `message` is `msg`. -/
structure World where
  /-- The value of `process.env.BROWSER_WS`. -/
  browserWS : Option String
  /-- The outcome of `puppeteer.connect`. -/
  connect : Except String Unit
  /-- The outcome of `browser.newPage()`. -/
  newPage : Except String Unit
  /-- The outcome of `page.setUserAgent`. -/
  setUserAgent : Except String Unit
  /-- The outcome of the first `page.goto`, on the category URL. -/
  gotoCategory : JsVal → Except String Page
  /-- The outcome of the second `page.goto`, on the chosen listing URL. -/
  gotoListing : JsVal → Except String Page
  /-- The value returned by `Math.random()`. -/
  random : Draw
  /-- The outcome of `page.close()`. -/
  pageClose : Except String Unit
  /-- The outcome of `browser.disconnect()`. -/
  disconnect : Except String Unit

/-- The calls a run makes on its collaborators.  `browserClose` is the call that would
terminate the remote browser. -/
inductive Call where
  | connectBrowser
  | puppeteerConnect
  | newPage
  | setUserAgent (ua : String)
  | goto (url : JsVal)
  | title
  | evaluate
  | pageClose
  | browserDisconnect
  | browserClose
  | respond (status : Nat) (body : Body)
  deriving DecidableEq

/-- The local state of one request: the calls made so far and whether the variables
`browser` and `page` of line 68 have been assigned. -/
structure Session where
  calls : List Call
  browser : Bool
  page : Bool

/-- The session at the start of the `try` block: nothing called, nothing assigned. -/
def Session.initial : Session := { calls := [], browser := false, page := false }

/-- The state after one more call. -/
def Session.log (s : Session) (c : Call) : Session :=
  { s with calls := s.calls ++ [c] }

/-- A piece of the handler: it changes the session and either yields a value or throws. -/
def Pipeline (α : Type) : Type := Session → Session × Except String α

/-- Sequencing: a throw skips what follows, the session changes made so far are kept. -/
def Pipeline.andThen {α β : Type} (x : Pipeline α) (f : α → Pipeline β) : Pipeline β :=
  fun s =>
    match x s with
    | (s1, .ok a) => f a s1
    | (s1, .error e) => (s1, .error e)

instance : Monad Pipeline where
  pure a := fun s => (s, .ok a)
  bind := Pipeline.andThen

/-- An awaited call on a collaborator, with the outcome the world gives it. -/
def await {α : Type} (c : Call) (outcome : Except String α) : Pipeline α :=
  fun s => (s.log c, outcome)

/-- A step computed by the handler itself. -/
def liftExcept {α : Type} (r : Except String α) : Pipeline α :=
  fun s => (s, r)

/-- The statement `try { x } catch {}`. -/
def tryCatchEmpty (x : Pipeline Unit) : Pipeline Unit :=
  fun s => ((x s).1, .ok ())

/-- The function `connectBrowser` of lines 28-36. -/
def connectBrowser (W : World) : Pipeline Unit :=
  fun s =>
    if !truthy W.browserWS then (s.log .connectBrowser, .error "BROWSER_WS env missing in Render")
    else ((s.log .connectBrowser).log .puppeteerConnect, W.connect)

/-- The function `safeGoto` of lines 38-43, with the page the navigation loads. -/
def safeGoto (url : JsVal) (outcome : Except String Page) : Pipeline Page :=
  await (.goto url) outcome

/-- The function `blockCloudflare` of lines 45-54. -/
def blockCloudflare (p : Page) : Pipeline Unit :=
  (await .title p.title).andThen fun title =>
    liftExcept (if isBlockedTitle title then .error "Blocked by Cloudflare" else .ok ())

/-- The string given to `page.setUserAgent` on lines 74-76. -/
def userAgent : String :=
  "Mozilla/5.0 (Windows NT 10.0; Win64; x64) AppleWebKit/537.36 Chrome/120 Safari/537.36"

/-- Lines 71-76: the connection, the page and its user agent.  The variables `browser` and
`page` are assigned when the awaited call has resolved. -/
def openSession (W : World) : Pipeline Unit := do
  connectBrowser W
  fun s => ({ s with browser := true }, .ok ())
  await .newPage W.newPage
  fun s => ({ s with page := true }, .ok ())
  await (.setUserAgent userAgent) W.setUserAgent

/-- Lines 79-144: the category page, the choice of a listing, the listing page and the
value handed to `res.json`. -/
def scrapeListing (W : World) (startUrl category : JsVal) : Pipeline Body := do
  let categoryPage ← safeGoto startUrl (W.gotoCategory startUrl)
  blockCloudflare categoryPage
  let hrefs ← await .evaluate categoryPage.hrefs
  let uniqueLinks ← liftExcept (listingDiscovery hrefs)
  let chosenUrl := chosen uniqueLinks W.random
  let listingPage ← safeGoto chosenUrl (W.gotoListing chosenUrl)
  blockCloudflare listingPage
  let data ← await .evaluate (listingPage.listing.map extract)
  liftExcept (normalize category chosenUrl data)

/-- The body of the `try` block (lines 71-144). -/
def tryBlock (W : World) (startUrl category : JsVal) : Pipeline Body := do
  openSession W
  scrapeListing W startUrl category

/-- The `try`/`catch` of lines 70-146: either way one response is sent. -/
def tryCatch (W : World) (startUrl category : JsVal) : Pipeline Unit :=
  fun s =>
    match tryBlock W startUrl category s with
    | (s1, .ok body) => (s1.log (.respond 200 body), .ok ())
    | (s1, .error message) => (s1.log (.respond 500 (.failure message)), .ok ())

/-- The `finally` block of lines 147-154. -/
def finallyBlock (W : World) : Pipeline Unit := do
  tryCatchEmpty (fun s => if s.page then await .pageClose W.pageClose s else (s, .ok ()))
  tryCatchEmpty (fun s => if s.browser then await .browserDisconnect W.disconnect s else (s, .ok ()))

/-- The body of a `POST /scrape` request: the two fields read on line 60. -/
structure Request where
  startUrl : JsVal
  category : JsVal

/-- What a run of the handler leaves behind: the calls it made, in order, and how the
handler's promise settled. -/
structure Run where
  calls : List Call
  completion : Except String Unit

/-- The handler of `POST /scrape` (lines 59-155). -/
def scrape (W : World) (req : Request) : Run :=
  if !req.startUrl.truthy || !req.category.truthy then
    { calls := [.respond 400 (.failure "startUrl or category missing")], completion := .ok () }
  else
    let (s1, r1) := tryCatch W req.startUrl req.category Session.initial
    let (s2, r2) := finallyBlock W s1
    { calls := s2.calls
      completion := match r2 with
        | .error e => .error e
        | .ok () => r1 }

/-- The responses sent during a run, as status and body. -/
def Run.responses (r : Run) : List (Nat × Body) :=
  r.calls.filterMap fun c =>
    match c with
    | .respond status body => some (status, body)
    | _ => none

/-! ## Descriptions of a world, used to state how far a run gets -/

/-- The connection to the remote browser is made: the endpoint is configured and
`puppeteer.connect` resolves. -/
def World.connects (W : World) : Bool :=
  truthy W.browserWS &&
    (match W.connect with
     | .ok _ => true
     | .error _ => false)

/-- A page is opened: the connection is made and `browser.newPage()` resolves. -/
def World.opensPage (W : World) : Bool :=
  W.connects &&
    (match W.newPage with
     | .ok _ => true
     | .error _ => false)

/-- The calls of the `finally` block of a run in the world `W`. -/
def World.cleanupCalls (W : World) : List Call :=
  (if W.opensPage then [Call.pageClose] else []) ++
    (if W.connects then [Call.browserDisconnect] else [])

/-- The session is set up (lines 71-76 all resolve) and the category page loads, is not
taken for a challenge page, and has the anchors `hrefs`. -/
def ReachesDiscovery (W : World) (startUrl : JsVal) (hrefs : List String) : Prop :=
  W.opensPage = true ∧ W.setUserAgent = .ok () ∧
    ∃ p title, W.gotoCategory startUrl = .ok p ∧ p.title = .ok title ∧
      isBlockedTitle title = false ∧ p.hrefs = .ok hrefs

/-- Discovery finds a candidate, `url` is the chosen one and its page `p` loads. -/
def ReachesListing (W : World) (startUrl url : JsVal) (p : Page) : Prop :=
  ∃ hrefs, ReachesDiscovery W startUrl hrefs ∧ candidates hrefs ≠ [] ∧
    url = chosen (candidates hrefs) W.random ∧ W.gotoListing url = .ok p

/-- The listing page of `url` is not taken for a challenge page and the extraction callback
returns `data`. -/
def ReachesNormalizer (W : World) (startUrl url : JsVal) (data : ExtractionResult) : Prop :=
  ∃ p title dom, ReachesListing W startUrl url p ∧ p.title = .ok title ∧
    isBlockedTitle title = false ∧ p.listing = .ok dom ∧ data = extract dom

/-- The response sent by the `try`/`catch` for an outcome of the `try` block: the envelope
with status 200, or the message of the error with status 500. -/
def responseOf (r : Except String Body) : Nat × Body :=
  match r with
  | .ok body => (200, body)
  | .error message => (500, .failure message)

/-- Whether a call is one of those made inside the `try` block before the response. -/
def Call.inTry : Call → Bool
  | .connectBrowser => true
  | .puppeteerConnect => true
  | .newPage => true
  | .setUserAgent _ => true
  | .goto _ => true
  | .title => true
  | .evaluate => true
  | _ => false

/-- Whether a call is one of those made on the page while browsing (lines 79-132). -/
def Call.isBrowsing : Call → Bool
  | .goto _ => true
  | .title => true
  | .evaluate => true
  | _ => false

/-- A piece of the handler that leaves `browser` and `page` alone and only adds browsing
calls to the trace. -/
def Pipeline.Browsing {α : Type} (x : Pipeline α) : Prop :=
  ∀ s, (x s).1.browser = s.browser ∧ (x s).1.page = s.page ∧
    ∃ cs, (x s).1.calls = s.calls ++ cs ∧ ∀ c ∈ cs, c.isBrowsing = true

/-! ## Notions of the specification -/

/-- Follows the specification: a field is absent when it is null or empty. -/
def absent (x : Option String) : Prop := x = none ∨ x = some ""

instance (x : Option String) : Decidable (absent x) :=
  inferInstanceAs (Decidable (x = none ∨ x = some ""))

/-- Follows the specification: the first source, in priority order, that yields a non-empty,
non-null value, and null when none does. -/
def firstPresent : List (Option String) → Option String
  | [] => none
  | none :: rest => firstPresent rest
  | some v :: rest => if v = "" then firstPresent rest else some v

/-- Follows the specification: the text matches `/^\d+$/`, a non-empty string of ASCII
digits. -/
def isDigitString (s : String) : Prop := s.data ≠ [] ∧ ∀ c ∈ s.data, c.isDigit = true

/-! ## Concrete pages and worlds (the end-to-end scenarios of the specification) -/

/-- A category page with three anchors: the same listing twice and a link to another site. -/
def threeAnchorPage : Page where
  title := .ok "Luxury homes for sale"
  hrefs := .ok ["https://www.jamesedition.com/real_estate/villa-x-123456",
    "https://example.com/about",
    "https://www.jamesedition.com/real_estate/villa-x-123456"]
  listing := .error "not a listing page"

/-- A listing document with `og:title` "Villa X", no price element and a
`product:price:amount` meta element. -/
def villaDom : ListingDom where
  innerText := fun _ => none
  metaProperty := fun name => if name = "og:title" then some "Villa X" else none
  metaName := fun name => if name = "product:price:amount" then some "€ 2,500,000" else none

/-- The listing page showing `villaDom`. -/
def villaPage : Page where
  title := .ok "Villa X | JamesEdition"
  hrefs := .ok []
  listing := .ok villaDom

/-- The double just below two thirds, `6004799503160661 / 2 ^ 53`. -/
def twoThirdsDraw : Draw where
  mant := 6004799503160661
  exp := 53
  mant_lt := by decide
  exp_ge := by decide
  exp_le := by decide

/-- The double one half, `2 ^ 52 / 2 ^ 53`. -/
def halfDraw : Draw where
  mant := 4503599627370496
  exp := 53
  mant_lt := by decide
  exp_ge := by decide
  exp_le := by decide

/-- The double just below four sevenths, `2573485501354569 / 2 ^ 52`, a multiple of
`2 ^ -52` (the grid of a generator with 52 random bits), written over `2 ^ 53`. -/
def fourSeventhsDraw : Draw where
  mant := 5146971002709138
  exp := 53
  mant_lt := by decide
  exp_ge := by decide
  exp_le := by decide

/-- A world in which every call resolves, the category page is `threeAnchorPage` and the
listing page is `villaPage`; closing the page fails. -/
def villaWorld : World where
  browserWS := some "wss://browser.example/devtools"
  connect := .ok ()
  newPage := .ok ()
  setUserAgent := .ok ()
  gotoCategory := fun _ => .ok threeAnchorPage
  gotoListing := fun _ => .ok villaPage
  random := twoThirdsDraw
  pageClose := .error "Protocol error: Target closed"
  disconnect := .ok ()

/-- A well-formed request. -/
def villaRequest : Request where
  startUrl := .str "https://www.jamesedition.com/real_estate"
  category := .str "real_estate"

/-- The world `villaWorld` with another listing page. -/
def worldWithListing (p : Page) : World :=
  { villaWorld with gotoListing := fun _ => .ok p }

/-- The world `villaWorld` with another category page. -/
def worldWithCategory (p : Page) : World :=
  { villaWorld with gotoCategory := fun _ => .ok p }

/-- A category page whose only anchor leads to another site. -/
def otherSitePage : Page where
  title := .ok "Luxury homes for sale"
  hrefs := .ok ["https://example.com/about"]
  listing := .error "not a listing page"

/-- A listing page taken over by a challenge. -/
def challengePage : Page where
  title := .ok "Just a moment..."
  hrefs := .ok []
  listing := .ok villaDom

/-- A listing document with a title and no price in any of the four sources. -/
def noPriceDom : ListingDom where
  innerText := fun sel => if sel = "h1" then some "  Villa X  " else none
  metaProperty := fun _ => none
  metaName := fun _ => none

/-- A listing document whose visible price element carries no digit. -/
def priceOnRequestDom : ListingDom where
  innerText := fun sel =>
    if sel = ".je2-listing-info__price span" then some " Price on request " else none
  metaProperty := fun name => if name = "og:title" then some "Villa X" else none
  metaName := fun _ => none

/-- A listing document whose text elements are padded with white space: the primary price
element holds white space only, the secondary one a padded price, the heading a padded
title; a `product:price:amount` meta element is present too. -/
def paddedDom : ListingDom where
  innerText := fun sel =>
    if sel = ".je2-listing-info__price span" then some " \n\t\u00A0 "
    else if sel = ".ListingCard__price" then some "\u00A0€ 1,200\n"
    else if sel = "h1" then some "  Villa X  "
    else none
  metaProperty := fun _ => none
  metaName := fun name => if name = "product:price:amount" then some "999" else none

/-- A listing page showing the document `dom`. -/
def pageOf (dom : ListingDom) : Page where
  title := .ok "Villa X | JamesEdition"
  hrefs := .ok []
  listing := .ok dom

/-! ## Lemmas on listing discovery -/

theorem matchDigitsToEnd_iff (cs : List Char) :
    matchDigitsToEnd cs = true ↔ cs ≠ [] ∧ ∀ c ∈ cs, c.isDigit = true := by
  induction cs with
  | nil => simp [matchDigitsToEnd]
  | cons c cs ih =>
    cases cs with
    | nil => simp [matchDigitsToEnd]
    | cons d ds =>
      have ih2 := ih
      simp only [ne_eq, reduceCtorEq, not_false_eq_true, true_and] at ih2
      simp only [matchDigitsToEnd] at ih2 ⊢
      simp only [Bool.and_eq_true, Bool.or_eq_true, ih2]
      simp

theorem testDigitsAtEnd_iff (cs : List Char) :
    testDigitsAtEnd cs = true ↔ ∃ front d, cs = front ++ [d] ∧ d.isDigit = true := by
  induction cs with
  | nil => simp [testDigitsAtEnd]
  | cons c cs ih =>
    rw [testDigitsAtEnd, Bool.or_eq_true, ih, matchDigitsToEnd_iff]
    constructor
    · rintro (⟨-, hall⟩ | ⟨front, d, rfl, hd⟩)
      · refine ⟨(c :: cs).dropLast, (c :: cs).getLast (by simp), ?_, ?_⟩
        · exact (List.dropLast_append_getLast _).symm
        · exact hall _ (List.getLast_mem _)
      · exact ⟨c :: front, d, rfl, hd⟩
    · rintro ⟨front, d, h, hd⟩
      cases front with
      | nil =>
        simp at h
        obtain ⟨rfl, rfl⟩ := h
        left
        simpa using hd
      | cons x xs =>
        simp at h
        exact Or.inr ⟨xs, d, h.2, hd⟩

theorem listingFilter_iff (h : String) :
    listingFilter h = true ↔
      siteOrigin.data <+: h.data ∧ ∃ front d, h.data = front ++ [d] ∧ d.isDigit = true := by
  unfold listingFilter startsWith
  rw [Bool.and_eq_true, Bool.and_eq_true, testDigitsAtEnd_iff, List.isPrefixOf_iff_prefix]
  constructor
  · rintro ⟨⟨-, hp⟩, hd⟩
    exact ⟨hp, hd⟩
  · rintro ⟨hp, front, d, hd, hdig⟩
    refine ⟨⟨?_, hp⟩, front, d, hd, hdig⟩
    simp only [decide_eq_true_eq]
    intro he
    rw [he] at hd
    simp at hd

theorem mem_foldl_setAdd (ls acc : List String) (h : String) :
    h ∈ ls.foldl setAdd acc ↔ h ∈ acc ∨ h ∈ ls := by
  induction ls generalizing acc with
  | nil => simp
  | cons x xs ih =>
    rw [List.foldl_cons, ih]
    unfold setAdd
    by_cases hx : x ∈ acc
    · simp only [hx, if_true, List.mem_cons]
      constructor
      · rintro (h1 | h1)
        · exact Or.inl h1
        · exact Or.inr (Or.inr h1)
      · rintro (h1 | rfl | h1)
        · exact Or.inl h1
        · exact Or.inl hx
        · exact Or.inr h1
    · simp only [hx, if_false, List.mem_append, List.mem_singleton, List.mem_cons]
      tauto

theorem nodup_foldl_setAdd (ls acc : List String) (hacc : acc.Nodup) :
    (ls.foldl setAdd acc).Nodup := by
  induction ls generalizing acc with
  | nil => simpa using hacc
  | cons x xs ih =>
    rw [List.foldl_cons]
    apply ih
    unfold setAdd
    by_cases hx : x ∈ acc
    · simpa [hx] using hacc
    · simp only [hx, if_false]
      rw [List.nodup_append]
      refine ⟨hacc, List.nodup_singleton x, ?_⟩
      intro a ha hb
      simp at hb
      subst hb
      exact hx ha

theorem foldl_setAdd_of_nodup (ls acc : List String) (hn : (acc ++ ls).Nodup) :
    ls.foldl setAdd acc = acc ++ ls := by
  induction ls generalizing acc with
  | nil => simp
  | cons x xs ih =>
    rw [List.foldl_cons]
    have hx : x ∉ acc := by
      intro hmem
      rw [List.nodup_append] at hn
      exact hn.2.2 hmem (List.mem_cons_self x xs)
    have hstep : setAdd acc x = acc ++ [x] := by simp [setAdd, hx]
    rw [hstep, ih]
    · simp
    · simpa using hn

theorem mem_unique (ls : List String) (h : String) : h ∈ unique ls ↔ h ∈ ls := by
  simp [unique, mem_foldl_setAdd]

theorem nodup_unique (ls : List String) : (unique ls).Nodup :=
  nodup_foldl_setAdd ls [] List.nodup_nil

theorem unique_of_nodup (ls : List String) (hn : ls.Nodup) : unique ls = ls := by
  simpa [unique] using foldl_setAdd_of_nodup ls [] (by simpa using hn)

theorem mem_candidates (hrefs : List String) (h : String) :
    h ∈ candidates hrefs ↔ h ∈ hrefs ∧ listingFilter h = true := by
  simp [candidates, links, mem_unique]

theorem candidates_candidates (hrefs : List String) :
    candidates (candidates hrefs) = candidates hrefs := by
  have hfix : links (candidates hrefs) = candidates hrefs := by
    unfold links
    rw [List.filter_eq_self]
    intro h hmem
    exact ((mem_candidates hrefs h).1 hmem).2
  show unique (links (candidates hrefs)) = candidates hrefs
  rw [hfix]
  exact unique_of_nodup _ (nodup_unique _)

/-! ## Lemmas on the pipeline -/

theorem Pipeline.bind_eq {α β : Type} (x : Pipeline α) (f : α → Pipeline β) :
    (x >>= f) = x.andThen f := rfl

theorem Pipeline.andThen_ok {α β : Type} (x : Pipeline α) (f : α → Pipeline β)
    (s s1 : Session) (a : α) (h : x s = (s1, .ok a)) : x.andThen f s = f a s1 := by
  simp [Pipeline.andThen, h]

theorem Pipeline.andThen_error {α β : Type} (x : Pipeline α) (f : α → Pipeline β)
    (s s1 : Session) (e : String) (h : x s = (s1, .error e)) :
    x.andThen f s = (s1, .error e) := by
  simp [Pipeline.andThen, h]

theorem Pipeline.Browsing.andThen {α β : Type} {x : Pipeline α} {f : α → Pipeline β}
    (hx : x.Browsing) (hf : ∀ a, (f a).Browsing) : (x.andThen f).Browsing := by
  intro s
  obtain ⟨hb, hp, cs, hcs, hall⟩ := hx s
  unfold Pipeline.andThen
  rcases hxs : x s with ⟨s1, r⟩
  rw [hxs] at hb hp hcs
  cases r with
  | error e => exact ⟨hb, hp, cs, hcs, hall⟩
  | ok a =>
    obtain ⟨hb2, hp2, cs2, hcs2, hall2⟩ := hf a s1
    refine ⟨hb2.trans hb, hp2.trans hp, cs ++ cs2, ?_, ?_⟩
    · simp only [hcs2]
      simp only at hcs
      rw [hcs, List.append_assoc]
    · intro c hc
      rcases List.mem_append.1 hc with h | h
      · exact hall c h
      · exact hall2 c h

theorem browsing_await {α : Type} (c : Call) (hc : c.isBrowsing = true)
    (outcome : Except String α) : (await c outcome).Browsing := by
  intro s
  exact ⟨rfl, rfl, [c], rfl, by simpa using hc⟩

theorem browsing_liftExcept {α : Type} (r : Except String α) : (liftExcept r).Browsing := by
  intro s
  exact ⟨rfl, rfl, [], by simp [liftExcept], by simp⟩

theorem browsing_blockCloudflare (p : Page) : (blockCloudflare p).Browsing :=
  Pipeline.Browsing.andThen (browsing_await _ (by rfl) _) (fun _ => browsing_liftExcept _)

theorem browsing_scrapeListing (W : World) (startUrl category : JsVal) :
    (scrapeListing W startUrl category).Browsing := by
  unfold scrapeListing
  simp only [Pipeline.bind_eq]
  refine Pipeline.Browsing.andThen (browsing_await _ (by rfl) _) (fun _ => ?_)
  refine Pipeline.Browsing.andThen (browsing_blockCloudflare _) (fun _ => ?_)
  refine Pipeline.Browsing.andThen (browsing_await _ (by rfl) _) (fun _ => ?_)
  refine Pipeline.Browsing.andThen (browsing_liftExcept _) (fun _ => ?_)
  refine Pipeline.Browsing.andThen (browsing_await _ (by rfl) _) (fun _ => ?_)
  refine Pipeline.Browsing.andThen (browsing_blockCloudflare _) (fun _ => ?_)
  refine Pipeline.Browsing.andThen (browsing_await _ (by rfl) _) (fun _ => ?_)
  exact browsing_liftExcept _

theorem inTry_of_isBrowsing (c : Call) (h : c.isBrowsing = true) : c.inTry = true := by
  cases c <;> simp_all [Call.isBrowsing, Call.inTry]

theorem openSession_flags (W : World) :
    (openSession W Session.initial).1.browser = W.connects ∧
      (openSession W Session.initial).1.page = W.opensPage ∧
      (∀ c ∈ (openSession W Session.initial).1.calls, c.inTry = true) ∧
      ((openSession W Session.initial).2 = .ok () →
        W.opensPage = true ∧ W.setUserAgent = .ok ()) := by
  unfold openSession
  simp only [Pipeline.bind_eq, Pipeline.andThen, connectBrowser, await, Session.log,
    Session.initial, World.opensPage, World.connects]
  cases hws : truthy W.browserWS <;> cases hc : W.connect <;> cases hn : W.newPage <;>
    cases hu : W.setUserAgent <;> simp [Call.inTry]

theorem openSession_ok (W : World) (hp : W.opensPage = true) (hu : W.setUserAgent = .ok ()) :
    openSession W Session.initial =
      ({ calls := [.connectBrowser, .puppeteerConnect, .newPage, .setUserAgent userAgent],
         browser := true, page := true }, .ok ()) := by
  unfold openSession
  simp only [World.opensPage, World.connects, Bool.and_eq_true] at hp
  obtain ⟨⟨hws, hc⟩, hn⟩ := hp
  cases hc2 : W.connect with
  | error e => simp [hc2] at hc
  | ok u =>
    cases hn2 : W.newPage with
    | error e => simp [hn2] at hn
    | ok v =>
      simp [Pipeline.bind_eq, Pipeline.andThen, connectBrowser, await, Session.log,
        Session.initial, hws, hc2, hn2, hu]

theorem tryBlock_flags (W : World) (startUrl category : JsVal) :
    (tryBlock W startUrl category Session.initial).1.browser = W.connects ∧
      (tryBlock W startUrl category Session.initial).1.page = W.opensPage ∧
      (∀ c ∈ (tryBlock W startUrl category Session.initial).1.calls, c.inTry = true) := by
  obtain ⟨hb, hp, hc, -⟩ := openSession_flags W
  unfold tryBlock
  simp only [Pipeline.bind_eq, Pipeline.andThen]
  rcases hos : openSession W Session.initial with ⟨s1, r⟩
  rw [hos] at hb hp hc
  cases r with
  | error e => exact ⟨hb, hp, hc⟩
  | ok u =>
    obtain ⟨hb2, hp2, cs, hcs, hall⟩ := browsing_scrapeListing W startUrl category s1
    refine ⟨hb2.trans hb, hp2.trans hp, ?_⟩
    intro c hmem
    simp only at hmem
    rw [hcs] at hmem
    rcases List.mem_append.1 hmem with h | h
    · exact hc c h
    · exact inTry_of_isBrowsing c (hall c h)

theorem scrape_calls (W : World) (req : Request)
    (hs : req.startUrl.truthy = true) (hc : req.category.truthy = true) :
    (scrape W req).calls =
        (tryBlock W req.startUrl req.category Session.initial).1.calls ++
          [.respond (responseOf (tryBlock W req.startUrl req.category Session.initial).2).1
            (responseOf (tryBlock W req.startUrl req.category Session.initial).2).2] ++
          W.cleanupCalls ∧
      (scrape W req).completion = .ok () := by
  obtain ⟨hb, hp, -⟩ := tryBlock_flags W req.startUrl req.category
  unfold scrape
  simp only [hs, hc, Bool.not_true, Bool.or_self, Bool.false_eq_true, if_false]
  simp only [tryCatch, finallyBlock, Pipeline.bind_eq, Pipeline.andThen, tryCatchEmpty,
    await, Session.log, World.cleanupCalls]
  rcases htb : tryBlock W req.startUrl req.category Session.initial with ⟨s1, r⟩
  rw [htb] at hb hp
  simp only at hb hp
  cases r <;> cases ho : W.opensPage <;> cases hcn : W.connects <;>
    simp [hb, hp, ho, hcn, responseOf] at hb hp ⊢

theorem filterMap_respond_inTry (cs : List Call) (h : ∀ c ∈ cs, c.inTry = true) :
    cs.filterMap (fun c =>
      match c with
      | .respond status body => some (status, body)
      | _ => none) = [] := by
  induction cs with
  | nil => rfl
  | cons c cs ih =>
    have hc := h c (List.mem_cons_self c cs)
    have ih2 := ih (fun d hd => h d (List.mem_cons_of_mem c hd))
    cases c <;> simp_all [Call.inTry]

theorem scrape_responses (W : World) (req : Request)
    (hs : req.startUrl.truthy = true) (hc : req.category.truthy = true) :
    (scrape W req).responses =
      [responseOf (tryBlock W req.startUrl req.category Session.initial).2] := by
  obtain ⟨hcalls, -⟩ := scrape_calls W req hs hc
  obtain ⟨-, -, hin⟩ := tryBlock_flags W req.startUrl req.category
  unfold Run.responses
  rw [hcalls, List.filterMap_append, List.filterMap_append, filterMap_respond_inTry _ hin]
  unfold World.cleanupCalls
  cases W.opensPage <;> cases W.connects <;> simp

theorem listingDiscovery_ok (hrefs : List String) (hne : candidates hrefs ≠ []) :
    listingDiscovery hrefs = .ok (candidates hrefs) := by
  simp [listingDiscovery, hne]

theorem listingDiscovery_empty (hrefs : List String) (he : candidates hrefs = []) :
    listingDiscovery hrefs = .error "No listings found" := by
  simp [listingDiscovery, he]

theorem tryBlock_no_listings (W : World) (startUrl category : JsVal) (hrefs : List String)
    (hr : ReachesDiscovery W startUrl hrefs) (he : candidates hrefs = []) :
    (tryBlock W startUrl category Session.initial).2 = .error "No listings found" := by
  obtain ⟨hp, hu, p, title, hg, ht, hb, hh⟩ := hr
  unfold tryBlock
  rw [Pipeline.bind_eq, Pipeline.andThen_ok _ _ _ _ _ (openSession_ok W hp hu)]
  simp [scrapeListing, Pipeline.bind_eq, Pipeline.andThen, safeGoto, await, blockCloudflare,
    liftExcept, hg, ht, hb, hh, listingDiscovery_empty hrefs he]

theorem tryBlock_blocked_listing (W : World) (startUrl category url : JsVal) (p : Page)
    (title : String) (hr : ReachesListing W startUrl url p) (ht : p.title = .ok title)
    (hb : isBlockedTitle title = true) :
    (tryBlock W startUrl category Session.initial).2 = .error "Blocked by Cloudflare" := by
  obtain ⟨hrefs, ⟨hp, hu, cp, ctitle, hg, hct, hcb, hh⟩, hne, hurl, hgl⟩ := hr
  subst hurl
  unfold tryBlock
  rw [Pipeline.bind_eq, Pipeline.andThen_ok _ _ _ _ _ (openSession_ok W hp hu)]
  simp [scrapeListing, Pipeline.bind_eq, Pipeline.andThen, safeGoto, await, blockCloudflare,
    liftExcept, hg, hct, hcb, hh, listingDiscovery_ok hrefs hne, hgl, ht, hb]

theorem tryBlock_normalize (W : World) (startUrl category url : JsVal)
    (data : ExtractionResult) (hr : ReachesNormalizer W startUrl url data) :
    (tryBlock W startUrl category Session.initial).2 = normalize category url data := by
  obtain ⟨p, title, dom, ⟨hrefs, ⟨hp, hu, cp, ctitle, hg, hct, hcb, hh⟩, hne, hurl, hgl⟩,
    ht, hb, hl, hd⟩ := hr
  subst hurl hd
  unfold tryBlock
  rw [Pipeline.bind_eq, Pipeline.andThen_ok _ _ _ _ _ (openSession_ok W hp hu)]
  simp [scrapeListing, Pipeline.bind_eq, Pipeline.andThen, safeGoto, await, blockCloudflare,
    liftExcept, hg, hct, hcb, hh, listingDiscovery_ok hrefs hne, hgl, ht, hb, hl, Except.map]

/-! ## Lemmas on the binary64 product and the selected index -/

theorem bitLengthAux_bounds (fuel n : Nat) (hn : n ≤ fuel) :
    n < 2 ^ bitLengthAux fuel n ∧ (n ≠ 0 → 2 ^ (bitLengthAux fuel n - 1) ≤ n) := by
  induction fuel generalizing n with
  | zero =>
    have h0 : n = 0 := by omega
    subst h0
    simp [bitLengthAux]
  | succ fuel ih =>
    unfold bitLengthAux
    by_cases h0 : n = 0
    · subst h0
      simp
    · simp only [h0, if_false]
      have hhalf : n / 2 ≤ fuel := by omega
      obtain ⟨hlt, hge⟩ := ih (n / 2) hhalf
      constructor
      · rw [pow_succ]
        omega
      · intro _
        simp only [Nat.add_sub_cancel]
        by_cases h1 : n / 2 = 0
        · have hb : bitLengthAux fuel (n / 2) = 0 := by
            rw [h1]
            cases fuel <;> simp [bitLengthAux]
          rw [hb]
          simp
          omega
        · have hge2 := hge h1
          have hpos : 1 ≤ bitLengthAux fuel (n / 2) := by
            by_contra hc
            have hz : bitLengthAux fuel (n / 2) = 0 := by omega
            rw [hz] at hlt
            simp at hlt
            exact h1 hlt
          have hpow : 2 ^ bitLengthAux fuel (n / 2) = 2 ^ (bitLengthAux fuel (n / 2) - 1) * 2 := by
            rw [← pow_succ]
            congr 1
            omega
          rw [hpow]
          omega

theorem lt_two_pow_bitLength (n : Nat) : n < 2 ^ bitLength n :=
  (bitLengthAux_bounds n n (Nat.le_refl n)).1

theorem two_pow_bitLength_le (n : Nat) (hn : n ≠ 0) : 2 ^ (bitLength n - 1) ≤ n :=
  (bitLengthAux_bounds n n (Nat.le_refl n)).2 hn

theorem roundNearestEven_cases (a s : Nat) :
    roundNearestEven a s = a / 2 ^ s ∨ roundNearestEven a s = a / 2 ^ s + 1 := by
  unfold roundNearestEven
  simp only
  split
  · exact Or.inl rfl
  · split
    · exact Or.inr rfl
    · split
      · exact Or.inl rfl
      · exact Or.inr rfl

theorem roundNearestEven_mul_le (a s : Nat) :
    2 * (roundNearestEven a s * 2 ^ s) ≤ 2 * a + 2 ^ s := by
  have hdm := Nat.div_add_mod a (2 ^ s)
  have hpos : 0 < 2 ^ s := Nat.pow_pos (by decide)
  have hmod := Nat.mod_lt a hpos
  unfold roundNearestEven
  simp only
  generalize a / 2 ^ s = q at *
  generalize a % 2 ^ s = r at *
  generalize 2 ^ s = p at *
  have hqp : p * q = q * p := Nat.mul_comm p q
  split
  · omega
  · split
    · rw [Nat.add_mul]
      omega
    · split
      · omega
      · rw [Nat.add_mul]
        omega

theorem mulDouble_lt (mant n : Nat) (hm : mant < 2 ^ 53) (hn : 0 < n) :
    mulDouble mant n < n * 2 ^ 53 := by
  unfold mulDouble
  simp only
  have hprod : mant * n + n ≤ n * 2 ^ 53 := by
    have h1 : mant + 1 ≤ 2 ^ 53 := hm
    calc mant * n + n = (mant + 1) * n := by ring
      _ ≤ 2 ^ 53 * n := Nat.mul_le_mul_right n h1
      _ = n * 2 ^ 53 := Nat.mul_comm _ _
  split
  · omega
  · rename_i hbig
    have ha0 : mant * n ≠ 0 := by
      intro h0
      rw [h0] at hbig
      simp at hbig
    have hlo := two_pow_bitLength_le (mant * n) ha0
    have hhi := lt_two_pow_bitLength (mant * n)
    have hb : 54 ≤ bitLength (mant * n) := by
      by_contra hc
      have hle : bitLength (mant * n) ≤ 53 := by omega
      have : 2 ^ bitLength (mant * n) ≤ 2 ^ 53 := Nat.pow_le_pow_right (by decide) hle
      omega
    have hround := roundNearestEven_mul_le (mant * n) (bitLength (mant * n) - 53)
    have hsplit : 2 ^ (bitLength (mant * n) - 1) = 2 ^ (bitLength (mant * n) - 53) * 2 ^ 52 := by
      rw [← pow_add]
      congr 1
      omega
    rw [hsplit] at hlo
    generalize 2 ^ (bitLength (mant * n) - 53) = p at *
    generalize roundNearestEven (mant * n) (bitLength (mant * n) - 53) * p = res at *
    norm_num at *
    omega

theorem randomIndex_lt (r : Draw) (n : Nat) (hn : 0 < n) : randomIndex r n < n := by
  unfold randomIndex
  rw [Nat.div_lt_iff_lt_mul (Nat.pow_pos (by decide))]
  have h1 := mulDouble_lt r.mant n r.mant_lt hn
  have h2 : (2 : Nat) ^ 53 ≤ 2 ^ r.exp := Nat.pow_le_pow_right (by decide) r.exp_ge
  calc mulDouble r.mant n < n * 2 ^ 53 := h1
    _ ≤ n * 2 ^ r.exp := Nat.mul_le_mul_left n h2

theorem randomIndex_exact (r : Draw) (n : Nat) (hx : r.mant * n < 2 ^ 53) :
    randomIndex r n = r.mant * n / 2 ^ r.exp := by
  unfold randomIndex mulDouble
  simp only
  rw [if_pos hx]

theorem succ_div_le (q k : Nat) (hk : 0 < k) : (q + 1) / k ≤ q / k + 1 := by
  have h1 : (q + 1) / k < q / k + 2 := by
    rw [Nat.div_lt_iff_lt_mul hk]
    have h2 := Nat.lt_mul_div_succ q hk
    have h3 : (q / k + 2) * k = k * (q / k + 1) + k := by ring
    omega
  omega

theorem randomIndex_bracket (r : Draw) (n : Nat) (hn : n < 2 ^ 53) :
    r.mant * n / 2 ^ r.exp ≤ randomIndex r n ∧
      randomIndex r n ≤ r.mant * n / 2 ^ r.exp + 1 := by
  by_cases hx : r.mant * n < 2 ^ 53
  · rw [randomIndex_exact r n hx]
    omega
  · have ha0 : r.mant * n ≠ 0 := by
      intro h0
      rw [h0] at hx
      simp at hx
    have hlo := two_pow_bitLength_le (r.mant * n) ha0
    have hlt : r.mant * n < 2 ^ 106 := by
      have hm := r.mant_lt
      calc r.mant * n < 2 ^ 53 * 2 ^ 53 := by
            have hn0 : 0 < n := by
              rcases Nat.eq_zero_or_pos n with h | h
              · rw [h] at ha0
                simp at ha0
              · exact h
            calc r.mant * n < 2 ^ 53 * n := Nat.mul_lt_mul_of_pos_right hm hn0
              _ ≤ 2 ^ 53 * 2 ^ 53 := Nat.mul_le_mul_left _ (Nat.le_of_lt hn)
        _ = 2 ^ 106 := by norm_num
    have hb : bitLength (r.mant * n) - 1 < 106 := by
      have : 2 ^ (bitLength (r.mant * n) - 1) < 2 ^ 106 := Nat.lt_of_le_of_lt hlo hlt
      exact (Nat.pow_lt_pow_iff_right (by decide)).1 this
    have hs : bitLength (r.mant * n) - 53 ≤ r.exp := by
      have := r.exp_ge
      omega
    unfold randomIndex mulDouble
    simp only [hx, if_false]
    generalize bitLength (r.mant * n) - 53 = s at hs ⊢
    have hsplit : 2 ^ r.exp = 2 ^ (r.exp - s) * 2 ^ s := by
      rw [← pow_add]
      congr 1
      omega
    have hps : 0 < 2 ^ s := Nat.pow_pos (by decide)
    have hpk : 0 < 2 ^ (r.exp - s) := Nat.pow_pos (by decide)
    rw [hsplit, Nat.mul_div_mul_right _ _ hps, Nat.mul_comm (2 ^ (r.exp - s)) (2 ^ s),
      ← Nat.div_div_eq_div_mul]
    rcases roundNearestEven_cases (r.mant * n) s with h | h
    · rw [h]
      omega
    · rw [h]
      constructor
      · exact Nat.div_le_div_right (Nat.le_succ _)
      · exact succ_div_le _ _ hpk

theorem floor_eq_iff_interval (r : Draw) (n i : Nat) (hn : 0 < n) :
    r.mant * n / 2 ^ r.exp = i ↔
      ((i : ℚ) / n ≤ r.value ∧ r.value < ((i : ℚ) + 1) / n) := by
  have hp : 0 < 2 ^ r.exp := Nat.pow_pos (by decide)
  have hpq : (0 : ℚ) < 2 ^ r.exp := by positivity
  have hnq : (0 : ℚ) < n := by exact_mod_cast hn
  have hnat : r.mant * n / 2 ^ r.exp = i ↔
      (i * 2 ^ r.exp ≤ r.mant * n ∧ r.mant * n < (i + 1) * 2 ^ r.exp) := by
    constructor
    · intro h
      subst h
      constructor
      · exact Nat.div_mul_le_self _ _
      · rw [Nat.mul_comm (r.mant * n / 2 ^ r.exp + 1)]
        exact Nat.lt_mul_div_succ _ hp
    · rintro ⟨h1, h2⟩
      apply Nat.le_antisymm
      · have := (Nat.div_lt_iff_lt_mul hp).2 h2
        omega
      · exact (Nat.le_div_iff_mul_le hp).2 h1
  rw [hnat]
  unfold Draw.value
  rw [div_le_div_iff₀ hnq hpq, div_lt_div_iff₀ hpq hnq]
  constructor
  · rintro ⟨h1, h2⟩
    exact ⟨by exact_mod_cast h1, by exact_mod_cast h2⟩
  · rintro ⟨h1, h2⟩
    exact ⟨by exact_mod_cast h1, by exact_mod_cast h2⟩

theorem chosen_mem (u : List String) (r : Draw) (hne : u ≠ []) :
    ∃ h, h ∈ u ∧ u[randomIndex r u.length]? = some h ∧ chosen u r = .str h := by
  have hlen : 0 < u.length := List.length_pos.2 hne
  have hlt := randomIndex_lt r u.length hlen
  refine ⟨u[randomIndex r u.length], List.getElem_mem _, ?_, ?_⟩
  · exact List.getElem?_eq_getElem hlt
  · unfold chosen
    rw [List.getElem?_eq_getElem hlt]

/-! ## Lemmas on block detection, extraction and normalisation -/

theorem includesAt_iff (cs t : List Char) : includesAt cs t = true ↔ t <:+: cs := by
  induction cs with
  | nil =>
    cases t <;> simp [includesAt]
  | cons c cs ih =>
    rw [includesAt, Bool.or_eq_true, ih, List.infix_cons_iff]
    simp

theorem isBlockedTitle_iff (title : String) :
    isBlockedTitle title = true ↔
      ("Just a moment".data <:+: title.data ∨ "Cloudflare".data <:+: title.data ∨
        "Verify".data <:+: title.data) := by
  unfold isBlockedTitle includes
  rw [Bool.or_eq_true, Bool.or_eq_true, includesAt_iff, includesAt_iff, includesAt_iff, or_assoc]

theorem blockCloudflare_result (p : Page) (title : String) (s : Session)
    (ht : p.title = .ok title) :
    (blockCloudflare p s).2 =
      if isBlockedTitle title then .error "Blocked by Cloudflare" else .ok () := by
  simp [blockCloudflare, Pipeline.andThen, await, liftExcept, ht]

theorem truthy_eq_false_iff (x : Option String) : truthy x = false ↔ absent x := by
  unfold absent
  cases x with
  | none => simp [truthy]
  | some v => simp [truthy]

theorem truthy_iff (x : Option String) : truthy x = true ↔ ∃ v, x = some v ∧ v ≠ "" := by
  cases x with
  | none => simp [truthy]
  | some v => simp [truthy]

theorem firstPresent_cons (a : Option String) (rest : List (Option String)) :
    firstPresent (a :: rest) = jsOr a (firstPresent rest) := by
  cases a with
  | none => simp [firstPresent, jsOr, truthy]
  | some v =>
    by_cases hv : v = ""
    · simp [firstPresent, jsOr, truthy, hv]
    · simp [firstPresent, jsOr, truthy, hv]

theorem jsOr_none (a : Option String) : jsOr a none = firstPresent [a] := by
  rw [firstPresent_cons]
  rfl

theorem jsOr_assoc (a b c : Option String) : jsOr (jsOr a b) c = jsOr a (jsOr b c) := by
  unfold jsOr
  by_cases ha : truthy a = true
  · simp [ha]
  · simp [ha]

theorem firstPresent_present (l : List (Option String)) :
    firstPresent l = none ∨ truthy (firstPresent l) = true := by
  induction l with
  | nil => exact Or.inl rfl
  | cons a rest ih =>
    rw [firstPresent_cons]
    unfold jsOr
    by_cases ha : truthy a = true
    · simp [ha]
    · simpa [ha] using ih

theorem jsOr_firstPresent_self (l : List (Option String)) :
    jsOr (firstPresent l) none = firstPresent l := by
  rcases firstPresent_present l with h | h
  · rw [h]
    rfl
  · simp [jsOr, h]

theorem text_eq (d : ListingDom) (sel : String) :
    text d sel = firstPresent [(d.innerText sel).map trim] := by
  unfold text
  exact jsOr_none _

theorem metaContent_eq (d : ListingDom) (name : String) :
    metaContent d name = firstPresent [d.metaProperty name, d.metaName name] := by
  unfold metaContent
  rw [jsOr_assoc, firstPresent_cons, firstPresent_cons]
  rfl

theorem normalize_error_iff (category url : JsVal) (data : ExtractionResult) :
    normalize category url data = .error "Invalid listing data" ↔
      (absent data.title ∨ absent data.price) := by
  rw [← truthy_eq_false_iff, ← truthy_eq_false_iff]
  unfold normalize
  cases truthy data.title <;> cases truthy data.price <;> simp

theorem normalize_ok (category url : JsVal) (data : ExtractionResult)
    (ht : truthy data.title = true) (hp : truthy data.price = true) :
    normalize category url data =
      .ok (.success category (websiteLink data.url url) data.title data.description
        (normalizePrice data.price) (imagesOf data.image)) := by
  simp [normalize, ht, hp]

theorem replaceNonDigits_eq_filter (cs : List Char) :
    replaceNonDigits cs = cs.filter Char.isDigit := by
  induction cs with
  | nil => rfl
  | cons c cs ih =>
    unfold replaceNonDigits
    by_cases hc : c.isDigit = true
    · simp [hc, ih]
    · simp [hc, ih]

theorem scrape_invalid (W : World) (req : Request)
    (h : req.startUrl.truthy = false ∨ req.category.truthy = false) :
    scrape W req =
      { calls := [.respond 400 (.failure "startUrl or category missing")]
        completion := .ok () } := by
  unfold scrape
  rcases h with h | h
  · simp [h]
  · simp [h]

theorem openSession_calls (W : World) :
    (Call.puppeteerConnect ∈ (openSession W Session.initial).1.calls ↔
        truthy W.browserWS = true) ∧
      (Call.newPage ∈ (openSession W Session.initial).1.calls ↔ W.connects = true) := by
  unfold openSession
  simp only [Pipeline.bind_eq, Pipeline.andThen, connectBrowser, await, Session.log,
    Session.initial, World.connects]
  cases hws : truthy W.browserWS <;> cases hc : W.connect <;> cases hn : W.newPage <;>
    cases hu : W.setUserAgent <;> simp

theorem tryBlock_session_calls (W : World) (startUrl category : JsVal) :
    (Call.puppeteerConnect ∈ (tryBlock W startUrl category Session.initial).1.calls ↔
        truthy W.browserWS = true) ∧
      (Call.newPage ∈ (tryBlock W startUrl category Session.initial).1.calls ↔
        W.connects = true) := by
  obtain ⟨h1, h2⟩ := openSession_calls W
  unfold tryBlock
  simp only [Pipeline.bind_eq, Pipeline.andThen]
  rcases hos : openSession W Session.initial with ⟨s1, r⟩
  rw [hos] at h1 h2
  cases r with
  | error e => exact ⟨h1, h2⟩
  | ok u =>
    obtain ⟨-, -, cs, hcs, hall⟩ := browsing_scrapeListing W startUrl category s1
    simp only at h1 h2 ⊢
    rw [hcs, List.mem_append, List.mem_append, h1, h2]
    constructor
    · constructor
      · rintro (h | h)
        · exact h
        · exact absurd (hall _ h) (by simp [Call.isBrowsing])
      · exact Or.inl
    · constructor
      · rintro (h | h)
        · exact h
        · exact absurd (hall _ h) (by simp [Call.isBrowsing])
      · exact Or.inl

/-! ## Further lemmas: rounding of the product, reaching the normalizer, `trim` -/

theorem bitLength_eq (a b : Nat) (hlo : 2 ^ (b - 1) ≤ a) (hhi : a < 2 ^ b) :
    bitLength a = b := by
  have ha0 : a ≠ 0 := by
    intro h0
    rw [h0] at hlo
    have := Nat.pow_pos (n := b - 1) (show 0 < 2 by decide)
    omega
  have h1 := two_pow_bitLength_le a ha0
  have h2 := lt_two_pow_bitLength a
  have hb1 : 1 ≤ b := by
    by_contra hc
    have : b = 0 := by omega
    rw [this] at hhi
    simp at hhi
    exact ha0 hhi
  have hB1 : 1 ≤ bitLength a := by
    by_contra hc
    have : bitLength a = 0 := by omega
    rw [this] at h2
    simp at h2
    exact ha0 h2
  have h3 : bitLength a - 1 < b :=
    (Nat.pow_lt_pow_iff_right (by decide)).1 (Nat.lt_of_le_of_lt h1 hhi)
  have h4 : b - 1 < bitLength a :=
    (Nat.pow_lt_pow_iff_right (by decide)).1 (Nat.lt_of_le_of_lt hlo h2)
  omega

theorem mulDouble_div (mant n e : Nat) (hx : ¬ mant * n < 2 ^ 53)
    (hs : bitLength (mant * n) - 53 ≤ e) :
    mulDouble mant n / 2 ^ e =
      roundNearestEven (mant * n) (bitLength (mant * n) - 53) /
        2 ^ (e - (bitLength (mant * n) - 53)) := by
  unfold mulDouble
  simp only [hx, if_false]
  generalize bitLength (mant * n) - 53 = s at hs ⊢
  have hsplit : 2 ^ e = 2 ^ (e - s) * 2 ^ s := by
    rw [← pow_add]
    congr 1
    omega
  have hps : 0 < 2 ^ s := Nat.pow_pos (by decide)
  rw [hsplit, Nat.mul_div_mul_right _ _ hps]

theorem mulDouble_of_dvd (mant n : Nat)
    (h : mant * n < 2 ^ 53 ∨ 2 ^ (bitLength (mant * n) - 53) ∣ mant * n) :
    mulDouble mant n = mant * n := by
  unfold mulDouble
  simp only
  split
  · rfl
  · rename_i hx
    rcases h with h | h
    · exact absurd h hx
    · have hmod : mant * n % 2 ^ (bitLength (mant * n) - 53) = 0 := Nat.mod_eq_zero_of_dvd h
      have hpos : 0 < 2 ^ (bitLength (mant * n) - 53) := Nat.pow_pos (by decide)
      unfold roundNearestEven
      simp only [hmod, Nat.mul_zero, hpos, if_true]
      exact Nat.div_mul_cancel h

/-- The core of the rounding analysis, on numerators: `a` has `b ≥ 54` binary digits and is
rounded to a multiple of `P = 2 ^ (b - 53)`; the floor of the rounded value over `K * P`
exceeds the floor of `a` exactly when `a` is within `P / 2` of the next multiple of
`K * P`. -/
theorem round_floor_succ_iff (a s k i : Nat) (hk : 1 ≤ k)
    (hi : a / (2 ^ k * 2 ^ s) = i) :
    (roundNearestEven a s / 2 ^ k = i + 1 ↔
        2 * ((i + 1) * (2 ^ k * 2 ^ s)) ≤ 2 * a + 2 ^ s) ∧
      (roundNearestEven a s / 2 ^ k = i ∨ roundNearestEven a s / 2 ^ k = i + 1) := by
  have hP : 0 < 2 ^ s := Nat.pow_pos (by decide)
  have hK : 0 < 2 ^ k := Nat.pow_pos (by decide)
  have hKeven : 2 ^ k = 2 * 2 ^ (k - 1) := by
    rw [← pow_succ']
    congr 1
    omega
  have hq : a / 2 ^ s / 2 ^ k = i := by
    rw [Nat.div_div_eq_div_mul, Nat.mul_comm (2 ^ s) (2 ^ k)]
    exact hi
  have hdm := Nat.div_add_mod a (2 ^ s)
  have hrem := Nat.mod_lt a hP
  have hqdm := Nat.div_add_mod (a / 2 ^ s) (2 ^ k)
  have ht := Nat.mod_lt (a / 2 ^ s) hK
  rw [hq] at hqdm
  unfold roundNearestEven
  simp only
  generalize a / 2 ^ s = q at *
  generalize a % 2 ^ s = rem at *
  generalize q % 2 ^ k = t at *
  generalize 2 ^ s = P at *
  generalize 2 ^ (k - 1) = K2 at *
  generalize 2 ^ k = K at *
  subst hKeven
  have hassoc : (i + 1) * (2 * K2 * P) = ((i + 1) * (2 * K2)) * P := by ring
  have hM : (i + 1) * (2 * K2) = 2 * K2 * i + 2 * K2 := by ring
  rw [hassoc, hM]
  by_cases hu : t + 1 = 2 * K2
  · have hq1 : 2 * K2 * i + 2 * K2 = q + 1 := by omega
    have hodd : q % 2 = 1 := by
      have : q = 2 * (K2 * i + K2 - 1) + 1 := by
        have h1 : 2 * K2 * i = 2 * (K2 * i) := by ring
        omega
      omega
    have hdiv1 : (q + 1) / (2 * K2) = i + 1 := by
      rw [← hq1]
      have : 2 * K2 * i + 2 * K2 = (2 * K2) * (i + 1) := by ring
      rw [this, Nat.mul_div_cancel_left _ hK]
    rw [hq1]
    have hmul : (q + 1) * P = P * q + P := by ring
    rw [hmul]
    split
    · rw [hq]
      constructor
      · constructor
        · intro h
          omega
        · intro h
          omega
      · exact Or.inl rfl
    · split
      · rw [hdiv1]
        constructor
        · constructor
          · intro _
            omega
          · intro _
            rfl
        · exact Or.inr rfl
      · simp only [hodd]
        rw [if_neg (by decide), hdiv1]
        constructor
        · constructor
          · intro _
            omega
          · intro _
            rfl
        · exact Or.inr rfl
  · have hlt : q + 2 ≤ 2 * K2 * i + 2 * K2 := by omega
    have hdiv1 : (q + 1) / (2 * K2) = i := by
      apply Nat.div_eq_of_lt_le
      · have : i * (2 * K2) = 2 * K2 * i := by ring
        omega
      · have : (i + 1) * (2 * K2) = 2 * K2 * i + 2 * K2 := by ring
        omega
    have hbig : (q + 2) * P ≤ (2 * K2 * i + 2 * K2) * P := Nat.mul_le_mul_right P hlt
    have hmul : (q + 2) * P = P * q + 2 * P := by ring
    rw [hmul] at hbig
    have hfalse : ¬ 2 * ((2 * K2 * i + 2 * K2) * P) ≤ 2 * a + P := by omega
    have hres : ∀ R, (R = q ∨ R = q + 1) → (R / (2 * K2) = i + 1 ↔
        2 * ((2 * K2 * i + 2 * K2) * P) ≤ 2 * a + P) ∧
        (R / (2 * K2) = i ∨ R / (2 * K2) = i + 1) := by
      intro R hR
      have hRi : R / (2 * K2) = i := by
        rcases hR with h | h
        · rw [h, hq]
        · rw [h, hdiv1]
      rw [hRi]
      constructor
      · constructor
        · intro h
          omega
        · intro h
          exact absurd h hfalse
      · exact Or.inl rfl
    apply hres
    split
    · exact Or.inl rfl
    · split
      · exact Or.inr rfl
      · split
        · exact Or.inl rfl
        · exact Or.inr rfl

theorem randomIndex_succ_iff (r : Draw) (n i b : Nat) (hn : n < 2 ^ 32)
    (hlo : 2 ^ (b - 1) ≤ r.mant * n) (hhi : r.mant * n < 2 ^ b)
    (hi : r.mant * n / 2 ^ r.exp = i) :
    randomIndex r n = i + 1 ↔
      (54 ≤ b ∧ 2 * ((i + 1) * 2 ^ r.exp) ≤ 2 * (r.mant * n) + 2 ^ (b - 53)) := by
  by_cases hb : 54 ≤ b
  · have h53 : (2 : Nat) ^ 53 ≤ 2 ^ (b - 1) := Nat.pow_le_pow_right (by decide) (by omega)
    have hx : ¬ r.mant * n < 2 ^ 53 := by omega
    have hbl := bitLength_eq (r.mant * n) b hlo hhi
    have hlt : r.mant * n < 2 ^ 85 := by
      have hm := r.mant_lt
      have hn0 : 0 < n := by
        rcases Nat.eq_zero_or_pos n with h | h
        · rw [h] at hx
          simp at hx
        · exact h
      calc r.mant * n < 2 ^ 53 * n := Nat.mul_lt_mul_of_pos_right hm hn0
        _ ≤ 2 ^ 53 * 2 ^ 32 := Nat.mul_le_mul_left _ (Nat.le_of_lt hn)
        _ = 2 ^ 85 := by norm_num
    have hb85 : b - 1 < 85 :=
      (Nat.pow_lt_pow_iff_right (by decide)).1 (Nat.lt_of_le_of_lt hlo hlt)
    have hexp := r.exp_ge
    have hs : bitLength (r.mant * n) - 53 ≤ r.exp := by
      rw [hbl]
      omega
    unfold randomIndex
    rw [mulDouble_div r.mant n r.exp hx hs, hbl]
    have hsplit : 2 ^ r.exp = 2 ^ (r.exp - (b - 53)) * 2 ^ (b - 53) := by
      rw [← pow_add]
      congr 1
      omega
    have hi2 : r.mant * n / (2 ^ (r.exp - (b - 53)) * 2 ^ (b - 53)) = i := by
      rw [← hsplit]
      exact hi
    have hcore := (round_floor_succ_iff (r.mant * n) (b - 53) (r.exp - (b - 53)) i
      (by omega) hi2).1
    rw [← hsplit] at hcore
    rw [hcore]
    constructor
    · intro h
      exact ⟨hb, h⟩
    · intro h
      exact h.2
  · have h53 : (2 : Nat) ^ b ≤ 2 ^ 53 := Nat.pow_le_pow_right (by decide) (by omega)
    have hx : r.mant * n < 2 ^ 53 := by omega
    rw [randomIndex_exact r n hx, hi]
    constructor
    · intro h
      omega
    · intro h
      exact absurd h.1 hb

theorem randomIndex_of_dvd (r : Draw) (n b : Nat)
    (hlo : 2 ^ (b - 1) ≤ r.mant * n) (hhi : r.mant * n < 2 ^ b)
    (h : b ≤ 53 ∨ 2 ^ (b - 53) ∣ r.mant * n) :
    randomIndex r n = r.mant * n / 2 ^ r.exp := by
  unfold randomIndex
  rw [mulDouble_of_dvd]
  rw [bitLength_eq (r.mant * n) b hlo hhi]
  rcases h with h | h
  · left
    have h53 : (2 : Nat) ^ b ≤ 2 ^ 53 := Nat.pow_le_pow_right (by decide) h
    omega
  · exact Or.inr h

theorem halfUlp_iff (r : Draw) (n i s : Nat) :
    (((i : ℚ) + 1) - r.value * n ≤ (2 : ℚ) ^ s / 2 ^ (r.exp + 1)) ↔
      2 * ((i + 1) * 2 ^ r.exp) ≤ 2 * (r.mant * n) + 2 ^ s := by
  have hpq : (0 : ℚ) < 2 ^ r.exp := by positivity
  have hpq1 : (0 : ℚ) < 2 ^ (r.exp + 1) := by positivity
  unfold Draw.value
  rw [le_div_iff₀ hpq1, pow_succ]
  have hrw : ((i : ℚ) + 1 - (r.mant : ℚ) / 2 ^ r.exp * n) * (2 ^ r.exp * 2) =
      2 * (((i : ℚ) + 1) * 2 ^ r.exp) - 2 * ((r.mant : ℚ) * n) := by
    field_simp
    ring
  rw [hrw, sub_le_iff_le_add]
  constructor
  · intro h
    have h2 : ((2 * ((i + 1) * 2 ^ r.exp) : Nat) : ℚ) ≤ ((2 ^ s + 2 * (r.mant * n) : Nat) : ℚ) := by
      push_cast
      exact h
    have h3 := Nat.cast_le.1 h2
    omega
  · intro h
    have h2 : ((2 * ((i + 1) * 2 ^ r.exp) : Nat) : ℚ) ≤ ((2 ^ s + 2 * (r.mant * n) : Nat) : ℚ) :=
      Nat.cast_le.2 (by omega)
    push_cast at h2
    exact h2

theorem scrapeListing_reaches (W : World) (startUrl category : JsVal) (s : Session)
    (body : Body) (h : (scrapeListing W startUrl category s).2 = .ok body) :
    ∃ p title hrefs lp ltitle dom,
      W.gotoCategory startUrl = .ok p ∧ p.title = .ok title ∧ isBlockedTitle title = false ∧
      p.hrefs = .ok hrefs ∧ candidates hrefs ≠ [] ∧
      W.gotoListing (chosen (candidates hrefs) W.random) = .ok lp ∧
      lp.title = .ok ltitle ∧ isBlockedTitle ltitle = false ∧ lp.listing = .ok dom ∧
      normalize category (chosen (candidates hrefs) W.random) (extract dom) = .ok body := by
  unfold scrapeListing at h
  simp only [Pipeline.bind_eq, Pipeline.andThen, safeGoto, await, blockCloudflare,
    liftExcept] at h
  cases hg : W.gotoCategory startUrl with
  | error e => simp [hg] at h
  | ok p =>
    cases ht : p.title with
    | error e => simp [hg, ht] at h
    | ok title =>
      cases hb : isBlockedTitle title with
      | true => simp [hg, ht, hb] at h
      | false =>
        cases hh : p.hrefs with
        | error e => simp [hg, ht, hb, hh] at h
        | ok hrefs =>
          by_cases hne : candidates hrefs = []
          · simp [hg, ht, hb, hh, listingDiscovery_empty hrefs hne] at h
          · cases hgl : W.gotoListing (chosen (candidates hrefs) W.random) with
            | error e => simp [hg, ht, hb, hh, listingDiscovery_ok hrefs hne, hgl] at h
            | ok lp =>
              cases hlt : lp.title with
              | error e => simp [hg, ht, hb, hh, listingDiscovery_ok hrefs hne, hgl, hlt] at h
              | ok ltitle =>
                cases hlb : isBlockedTitle ltitle with
                | true =>
                  simp [hg, ht, hb, hh, listingDiscovery_ok hrefs hne, hgl, hlt, hlb] at h
                | false =>
                  cases hl : lp.listing with
                  | error e =>
                    simp [hg, ht, hb, hh, listingDiscovery_ok hrefs hne, hgl, hlt, hlb, hl,
                      Except.map] at h
                  | ok dom =>
                    simp [hg, ht, hb, hh, listingDiscovery_ok hrefs hne, hgl, hlt, hlb, hl,
                      Except.map] at h
                    exact ⟨p, title, hrefs, lp, ltitle, dom, rfl, ht, hb, hh, hne, hgl, hlt,
                      hlb, hl, h⟩

theorem tryBlock_reaches (W : World) (startUrl category : JsVal) (body : Body)
    (h : (tryBlock W startUrl category Session.initial).2 = .ok body) :
    ∃ url data, ReachesNormalizer W startUrl url data ∧
      normalize category url data = .ok body := by
  obtain ⟨-, -, -, hopen⟩ := openSession_flags W
  unfold tryBlock at h
  simp only [Pipeline.bind_eq, Pipeline.andThen] at h
  rcases hos : openSession W Session.initial with ⟨s1, r⟩
  rw [hos] at h hopen
  cases r with
  | error e => simp at h
  | ok u =>
    simp only at h
    obtain ⟨hp, hu⟩ := hopen rfl
    obtain ⟨p, title, hrefs, lp, ltitle, dom, hg, ht, hb, hh, hne, hgl, hlt, hlb, hl, hn⟩ :=
      scrapeListing_reaches W startUrl category s1 body h
    exact ⟨_, _, ⟨lp, ltitle, dom, ⟨hrefs, ⟨hp, hu, p, title, hg, ht, hb, hh⟩, hne, rfl, hgl⟩,
      hlt, hlb, hl, rfl⟩, hn⟩

theorem reachesNormalizer_unique (W : World) (startUrl url url2 : JsVal)
    (data data2 : ExtractionResult) (h : ReachesNormalizer W startUrl url data)
    (h2 : ReachesNormalizer W startUrl url2 data2) : url = url2 ∧ data = data2 := by
  obtain ⟨lp, lt, dom, ⟨hrefs, ⟨-, -, p, t, hg, -, -, hh⟩, -, hu, hgl⟩, -, -, hl, hd⟩ := h
  obtain ⟨lp2, lt2, dom2, ⟨hrefs2, ⟨-, -, p2, t2, hg2, -, -, hh2⟩, -, hu2, hgl2⟩, -, -, hl2,
    hd2⟩ := h2
  rw [hg] at hg2
  cases hg2
  rw [hh] at hh2
  cases hh2
  have hurl : url = url2 := hu.trans hu2.symm
  subst hurl
  rw [hgl] at hgl2
  cases hgl2
  rw [hl] at hl2
  cases hl2
  exact ⟨rfl, hd.trans hd2.symm⟩

theorem trim_spec (s : String) :
    ∃ front back, s.data = front ++ (trim s).data ++ back ∧
      (∀ c ∈ front, isJsWhiteSpace c = true) ∧ (∀ c ∈ back, isJsWhiteSpace c = true) ∧
      (∀ c, (trim s).data.head? = some c → isJsWhiteSpace c = false) ∧
      (∀ c, (trim s).data.getLast? = some c → isJsWhiteSpace c = false) := by
  have hmid : s.data.dropWhile isJsWhiteSpace =
      ((s.data.dropWhile isJsWhiteSpace).reverse.dropWhile isJsWhiteSpace).reverse ++
        ((s.data.dropWhile isJsWhiteSpace).reverse.takeWhile isJsWhiteSpace).reverse := by
    rw [← List.reverse_append, List.takeWhile_append_dropWhile, List.reverse_reverse]
  refine ⟨s.data.takeWhile isJsWhiteSpace,
    ((s.data.dropWhile isJsWhiteSpace).reverse.takeWhile isJsWhiteSpace).reverse, ?_, ?_, ?_,
    ?_, ?_⟩
  · show s.data = _ ++ ((s.data.dropWhile isJsWhiteSpace).reverse.dropWhile
      isJsWhiteSpace).reverse ++ _
    rw [List.append_assoc, ← hmid, List.takeWhile_append_dropWhile]
  · intro c hc
    exact List.mem_takeWhile_imp hc
  · intro c hc
    exact List.mem_takeWhile_imp (List.mem_reverse.1 hc)
  · intro c hc
    have hT : (trim s).data =
        ((s.data.dropWhile isJsWhiteSpace).reverse.dropWhile isJsWhiteSpace).reverse := rfl
    rw [hT] at hc
    have hhead : (s.data.dropWhile isJsWhiteSpace).head? = some c := by
      rw [hmid]
      cases hl : ((s.data.dropWhile isJsWhiteSpace).reverse.dropWhile isJsWhiteSpace).reverse with
      | nil => rw [hl] at hc; simp at hc
      | cons x xs => rw [hl] at hc; simpa using hc
    have := List.head?_dropWhile_not isJsWhiteSpace s.data
    rw [hhead] at this
    exact this
  · intro c hc
    have hT : (trim s).data =
        ((s.data.dropWhile isJsWhiteSpace).reverse.dropWhile isJsWhiteSpace).reverse := rfl
    rw [hT, List.getLast?_reverse] at hc
    have := List.head?_dropWhile_not isJsWhiteSpace (s.data.dropWhile isJsWhiteSpace).reverse
    rw [hc] at this
    exact this

theorem isJsWhiteSpace_iff (c : Char) :
    isJsWhiteSpace c = true ↔
      c.toNat ∈ [0x9, 0xA, 0xB, 0xC, 0xD, 0x20, 0xA0, 0x1680, 0x2000, 0x2001, 0x2002, 0x2003,
        0x2004, 0x2005, 0x2006, 0x2007, 0x2008, 0x2009, 0x200A, 0x2028, 0x2029, 0x202F,
        0x205F, 0x3000, 0xFEFF] := by
  unfold isJsWhiteSpace
  simp only [Bool.or_eq_true, Bool.and_eq_true, decide_eq_true_eq, beq_iff_eq, List.mem_cons,
    List.mem_singleton, List.not_mem_nil, or_false]
  omega

/-! ## The claims of the specification -/

/-- C2, counterexample: an href on another host whose name merely begins with the site's
host name, and an href whose query string alone ends in a digit, are both candidates, and
neither is a canonical listing URL. -/
theorem candidates_not_canonical :
    candidates ["https://www.jamesedition.com.evil.example/123",
        "https://www.jamesedition.com/search?page=2"] =
      ["https://www.jamesedition.com.evil.example/123",
        "https://www.jamesedition.com/search?page=2"] ∧
      isCanonicalListingUrl "https://www.jamesedition.com.evil.example/123" = false ∧
      isCanonicalListingUrl "https://www.jamesedition.com/search?page=2" = false := by
  decide

/-- C2, amended: every candidate is one of the hrefs read from the category page, begins
with the literal text `https://www.jamesedition.com` and has an ASCII digit as its last
character; both tests are made on the href as a whole string. -/
theorem candidates_match_filter (hrefs : List String) (h : String)
    (hm : h ∈ candidates hrefs) :
    h ∈ hrefs ∧ siteOrigin.data <+: h.data ∧
      ∃ front d, h.data = front ++ [d] ∧ d.isDigit = true := by
  obtain ⟨hmem, hf⟩ := (mem_candidates hrefs h).1 hm
  exact ⟨hmem, (listingFilter_iff h).1 hf⟩

/-- C2, witness: the listing anchor of the three-anchor page is a candidate and passes both string tests. -/
theorem candidates_match_filter_witness :
    "https://www.jamesedition.com/real_estate/villa-x-123456" ∈
        candidates ["https://www.jamesedition.com/real_estate/villa-x-123456",
          "https://example.com/about"] ∧
      ("https://www.jamesedition.com/real_estate/villa-x-123456" ∈
          ["https://www.jamesedition.com/real_estate/villa-x-123456",
            "https://example.com/about"] ∧
        siteOrigin.data <+: "https://www.jamesedition.com/real_estate/villa-x-123456".data ∧
        ∃ front d, "https://www.jamesedition.com/real_estate/villa-x-123456".data = front ++ [d] ∧
          d.isDigit = true) :=
  ⟨by decide, candidates_match_filter _ _ (by decide)⟩

/-- C3: when `startUrl` or `category` is missing or falsy the run consists of one call, the
response with status 400 and the missing-field error; in particular `connectBrowser` is not
called, no page is opened and no cleanup step runs. -/
theorem scrape_missing_field (W : World) (req : Request)
    (h : req.startUrl.truthy = false ∨ req.category.truthy = false) :
    (scrape W req).calls = [.respond 400 (.failure "startUrl or category missing")] ∧
      (scrape W req).responses = [(400, .failure "startUrl or category missing")] ∧
      Call.connectBrowser ∉ (scrape W req).calls ∧
      Call.puppeteerConnect ∉ (scrape W req).calls ∧
      Call.newPage ∉ (scrape W req).calls ∧
      Call.pageClose ∉ (scrape W req).calls ∧
      Call.browserDisconnect ∉ (scrape W req).calls := by
  rw [scrape_invalid W req h]
  simp [Run.responses]

/-- C3, witness: a request with the empty string as `startUrl` gets the status 400 response and nothing else. -/
theorem scrape_missing_field_witness :
    ((Request.mk (.str "") (.str "real_estate")).startUrl.truthy = false ∨
        (Request.mk (.str "") (.str "real_estate")).category.truthy = false) ∧
      (scrape villaWorld (Request.mk (.str "") (.str "real_estate"))).calls =
        [.respond 400 (.failure "startUrl or category missing")] :=
  ⟨Or.inl (by decide),
    (scrape_missing_field villaWorld (Request.mk (.str "") (.str "real_estate"))
      (Or.inl (by decide))).1⟩

/-- C4: on a page whose title is `title`, `blockCloudflare` throws "Blocked by Cloudflare"
exactly when the title contains "Just a moment", "Cloudflare" or "Verify" as a
case-sensitive substring, and completes otherwise (so for "cloudflare"); when it throws on
the listing page the one response has status 500 and a message containing "Blocked". -/
theorem blockCloudflare_iff (p : Page) (title : String) (s : Session)
    (ht : p.title = .ok title) :
    ((blockCloudflare p s).2 = .error "Blocked by Cloudflare" ↔
        ("Just a moment".data <:+: title.data ∨ "Cloudflare".data <:+: title.data ∨
          "Verify".data <:+: title.data)) ∧
      (¬ ("Just a moment".data <:+: title.data ∨ "Cloudflare".data <:+: title.data ∨
          "Verify".data <:+: title.data) → (blockCloudflare p s).2 = .ok ()) ∧
      isBlockedTitle "cloudflare" = false ∧
      (∀ (W : World) (req : Request) (url : JsVal),
        ReachesListing W req.startUrl url p →
        req.startUrl.truthy = true → req.category.truthy = true →
        ("Just a moment".data <:+: title.data ∨ "Cloudflare".data <:+: title.data ∨
          "Verify".data <:+: title.data) →
        (scrape W req).responses = [(500, .failure "Blocked by Cloudflare")] ∧
          includes "Blocked by Cloudflare" "Blocked" = true) := by
  rw [blockCloudflare_result p title s ht, ← isBlockedTitle_iff]
  refine ⟨?_, ?_, by decide, ?_⟩
  · cases isBlockedTitle title <;> simp
  · intro hn
    simp [hn]
  · intro W req url hr hs hc hb
    rw [scrape_responses W req hs hc,
      tryBlock_blocked_listing W req.startUrl req.category url p title hr ht hb]
    exact ⟨rfl, by decide⟩

/-- C4, witness: a listing page titled "Just a moment..." gives the status 500 response with the blocked-page message. -/
theorem blockCloudflare_iff_witness :
    challengePage.title = .ok "Just a moment..." ∧
      (scrape (worldWithListing challengePage) villaRequest).responses =
        [(500, .failure "Blocked by Cloudflare")] :=
  ⟨rfl,
    ((blockCloudflare_iff challengePage "Just a moment..." Session.initial rfl).2.2.2
      (worldWithListing challengePage) villaRequest
      (.str "https://www.jamesedition.com/real_estate/villa-x-123456")
      ⟨_, ⟨rfl, rfl, threeAnchorPage, _, rfl, rfl, by decide, rfl⟩, by decide, by decide, rfl⟩
      rfl rfl (by decide)).1⟩

/-- C5: each field of the extraction result is the first source of its priority order that
yields a non-empty, non-null value, and null when none does; `meta` itself reads the
`property` element before the `name` element.  The text sources are trimmed: `trim` removes
exactly the leading and trailing ECMAScript white space (the code points listed), so padded
text loses its padding and an element holding white space only yields to the next source.
The page with `og:title` "Villa X", no price element and a `product:price:amount` meta
element gives that title and that price. -/
theorem extract_first_present (d : ListingDom) :
    (extract d).price =
        firstPresent [(d.innerText ".je2-listing-info__price span").map trim,
          (d.innerText ".ListingCard__price").map trim,
          metaContent d "product:price:amount", metaContent d "og:price:amount"] ∧
      (extract d).title = firstPresent [metaContent d "og:title", (d.innerText "h1").map trim] ∧
      (extract d).description = firstPresent [metaContent d "og:description"] ∧
      (extract d).image = firstPresent [metaContent d "og:image"] ∧
      (extract d).url = firstPresent [metaContent d "og:url"] ∧
      (∀ name, metaContent d name = firstPresent [d.metaProperty name, d.metaName name]) ∧
      (∀ v, v ≠ "" → (d.innerText ".je2-listing-info__price span").map trim = some v →
        (extract d).price = some v) ∧
      (∀ v, v ≠ "" → metaContent d "og:title" = some v → (extract d).title = some v) ∧
      (extract villaDom).title = some "Villa X" ∧
      (extract villaDom).price = some "€ 2,500,000" ∧
      (∀ s : String, ∃ front back, s.data = front ++ (trim s).data ++ back ∧
        (∀ c ∈ front, isJsWhiteSpace c = true) ∧ (∀ c ∈ back, isJsWhiteSpace c = true) ∧
        (∀ c, (trim s).data.head? = some c → isJsWhiteSpace c = false) ∧
        (∀ c, (trim s).data.getLast? = some c → isJsWhiteSpace c = false)) ∧
      (∀ c : Char, isJsWhiteSpace c = true ↔
        c.toNat ∈ [0x9, 0xA, 0xB, 0xC, 0xD, 0x20, 0xA0, 0x1680, 0x2000, 0x2001, 0x2002,
          0x2003, 0x2004, 0x2005, 0x2006, 0x2007, 0x2008, 0x2009, 0x200A, 0x2028, 0x2029,
          0x202F, 0x205F, 0x3000, 0xFEFF]) ∧
      (extract paddedDom).title = some "Villa X" ∧
      (extract paddedDom).price = some "€ 1,200" ∧
      (extract noPriceDom).title = some "Villa X" ∧
      (extract priceOnRequestDom).price = some "Price on request" ∧
      trim "\uFEFF\u2028\u3000 x y \t\r\n\x0b\x0c\u00A0" = "x y" ∧
      trim "\u200Bx\u200B" = "\u200Bx\u200B" := by
  have hmeta : ∀ name, jsOr (metaContent d name) none = metaContent d name := by
    intro name
    rw [metaContent_eq]
    exact jsOr_firstPresent_self _
  have hprice : (extract d).price =
        firstPresent [(d.innerText ".je2-listing-info__price span").map trim,
          (d.innerText ".ListingCard__price").map trim,
          metaContent d "product:price:amount", metaContent d "og:price:amount"] := by
    simp only [extract, text, firstPresent_cons]
    rw [show firstPresent [] = none from rfl, hmeta]
    simp only [jsOr_assoc]
    rfl
  have htitle : (extract d).title =
      firstPresent [metaContent d "og:title", (d.innerText "h1").map trim] := by
    simp only [extract, text, firstPresent_cons]
    rfl
  refine ⟨hprice, htitle, ?_, ?_, ?_, metaContent_eq d, ?_, ?_, by decide, by decide, trim_spec,
    isJsWhiteSpace_iff, by decide, by decide, by decide, by decide, by decide, by decide⟩
  · rw [← jsOr_none, hmeta]
    rfl
  · rw [← jsOr_none, hmeta]
    rfl
  · rw [← jsOr_none, hmeta]
    rfl
  · intro v hv hsrc
    rw [hprice, hsrc]
    simp [firstPresent, hv]
  · intro v hv hsrc
    rw [htitle, hsrc]
    simp [firstPresent, hv]

/-- C6: the normalizer throws "Invalid listing data" exactly when the title or the price is
absent (null or empty); a result with a title and a price and nothing else is accepted; and
when it throws, the one response has status 500 and the body with that error text. -/
theorem normalize_fails_iff (category url : JsVal) (data : ExtractionResult) :
    (normalize category url data = .error "Invalid listing data" ↔
        (absent data.title ∨ absent data.price)) ∧
      (¬ absent data.title → ¬ absent data.price →
        ∃ body, normalize category url data = .ok body) ∧
      (∀ title price, title ≠ "" → price ≠ "" →
        ∃ body, normalize category url
          { title := some title, description := none, image := none, url := none,
            price := some price } = .ok body) ∧
      (∀ (W : World) (req : Request),
        ReachesNormalizer W req.startUrl url data →
        req.startUrl.truthy = true → req.category.truthy = true →
        (absent data.title ∨ absent data.price) →
        (scrape W req).responses = [(500, .failure "Invalid listing data")]) := by
  refine ⟨normalize_error_iff category url data, ?_, ?_, ?_⟩
  · intro ht hp
    rw [← truthy_eq_false_iff] at ht hp
    simp only [Bool.not_eq_false] at ht hp
    exact ⟨_, normalize_ok category url data ht hp⟩
  · intro title price ht hp
    exact ⟨_, normalize_ok category url _ (by simp [truthy, ht]) (by simp [truthy, hp])⟩
  · intro W req hr hs hc hab
    rw [scrape_responses W req hs hc,
      tryBlock_normalize W req.startUrl req.category url data hr,
      (normalize_error_iff req.category url data).2 hab]
    rfl

/-- C6, witness: a listing with a title and no price in any source gives the status 500 response "Invalid listing data". -/
theorem normalize_fails_iff_witness :
    absent (extract noPriceDom).price ∧
      (scrape (worldWithListing (pageOf noPriceDom)) villaRequest).responses =
        [(500, .failure "Invalid listing data")] :=
  ⟨Or.inl (by decide),
    (normalize_fails_iff (.str "real_estate")
      (.str "https://www.jamesedition.com/real_estate/villa-x-123456")
      (extract noPriceDom)).2.2.2
      (worldWithListing (pageOf noPriceDom)) villaRequest
      ⟨pageOf noPriceDom, _, noPriceDom,
        ⟨_, ⟨rfl, rfl, threeAnchorPage, _, rfl, rfl, by decide, rfl⟩, by decide, by decide, rfl⟩,
        rfl, by decide, rfl, rfl⟩
      rfl rfl (Or.inr (Or.inl (by decide)))⟩

/-- C7: when the extraction result passes validation the one response has status 200 and
the envelope with the request's category, the extracted url or else the chosen listing URL,
the title, the extracted description, the price reduced to its ASCII digits in their
original order, and the image as a list of one element or the empty list. -/
theorem success_envelope (W : World) (req : Request) (url : JsVal) (data : ExtractionResult)
    (hr : ReachesNormalizer W req.startUrl url data)
    (hs : req.startUrl.truthy = true) (hc : req.category.truthy = true)
    (ht : ¬ absent data.title) (hp : ¬ absent data.price) :
    ∃ title price chosenUrl link images,
      data.title = some title ∧ data.price = some price ∧ url = .str chosenUrl ∧
      (scrape W req).responses =
        [(200, .success req.category link (some title) data.description
          ⟨price.data.filter Char.isDigit⟩ images)] ∧
      (absent data.url → link = .str chosenUrl) ∧
      (∀ u, data.url = some u → u ≠ "" → link = .str u) ∧
      (absent data.image → images = []) ∧
      (∀ i, data.image = some i → i ≠ "" → images = [i]) ∧
      images.length ≤ 1 ∧
      normalizePrice (some "€ 2,500,000") = "2500000" ∧
      normalizePrice (some "007") = "007" := by
  rw [← truthy_eq_false_iff] at ht hp
  simp only [Bool.not_eq_false] at ht hp
  obtain ⟨title, htitle, -⟩ := (truthy_iff _).1 ht
  obtain ⟨price, hprice, -⟩ := (truthy_iff _).1 hp
  have hurl : ∃ chosenUrl, url = .str chosenUrl := by
    obtain ⟨p, t, dom, ⟨hrefs, -, hne, hu, -⟩, -⟩ := hr
    obtain ⟨h, -, -, hch⟩ := chosen_mem (candidates hrefs) W.random hne
    exact ⟨h, hu.trans hch⟩
  obtain ⟨chosenUrl, hchosen⟩ := hurl
  refine ⟨title, price, chosenUrl, websiteLink data.url url, imagesOf data.image, htitle,
    hprice, hchosen, ?_, ?_, ?_, ?_, ?_, ?_, by decide, by decide⟩
  · rw [scrape_responses W req hs hc,
      tryBlock_normalize W req.startUrl req.category url data hr]
    rw [normalize_ok req.category url data ht hp]
    simp [responseOf, normalizePrice, hprice, jsString, htitle, replaceNonDigits_eq_filter]
  · intro ha
    rcases ha with h | h <;> simp [websiteLink, h, truthy, hchosen]
  · intro u hu hne
    simp [websiteLink, hu, truthy, hne]
  · intro ha
    rcases ha with h | h <;> simp [imagesOf, h, truthy]
  · intro i hi hne
    simp [imagesOf, hi, truthy, hne]
  · unfold imagesOf
    split
    · split <;> simp
    · simp

/-- C7, witness: the listing with `og:title` "Villa X" and the price "€ 2,500,000" gives the status 200 envelope. -/
theorem success_envelope_witness :
    ¬ absent (extract villaDom).title ∧ ¬ absent (extract villaDom).price ∧
      ∃ title price chosenUrl link images,
        (extract villaDom).title = some title ∧ (extract villaDom).price = some price ∧
        JsVal.str "https://www.jamesedition.com/real_estate/villa-x-123456" = .str chosenUrl ∧
        (scrape villaWorld villaRequest).responses =
          [(200, .success villaRequest.category link (some title) (extract villaDom).description
            ⟨price.data.filter Char.isDigit⟩ images)] ∧
        (absent (extract villaDom).url → link = .str chosenUrl) ∧
        (∀ u, (extract villaDom).url = some u → u ≠ "" → link = .str u) ∧
        (absent (extract villaDom).image → images = []) ∧
        (∀ i, (extract villaDom).image = some i → i ≠ "" → images = [i]) ∧
        images.length ≤ 1 ∧
        normalizePrice (some "€ 2,500,000") = "2500000" ∧
        normalizePrice (some "007") = "007" :=
  ⟨by decide, by decide,
    success_envelope villaWorld villaRequest
      (.str "https://www.jamesedition.com/real_estate/villa-x-123456") (extract villaDom)
      ⟨villaPage, _, villaDom,
        ⟨_, ⟨rfl, rfl, threeAnchorPage, _, rfl, rfl, by decide, rfl⟩, by decide, by decide, rfl⟩,
        rfl, by decide, rfl, rfl⟩
      rfl rfl (by decide) (by decide)⟩

/-- C8: past the validation of the request, every run ends with the cleanup calls, after the
one response: `page.close()` when a page was opened, then `browser.disconnect()` when the
connection was made, whatever the outcome of `page.close()`; the browser is never closed,
the handler's promise resolves, and the run is the same whatever the two cleanup calls
return or throw. -/
theorem cleanup_always_runs (W : World) (req : Request)
    (hs : req.startUrl.truthy = true) (hc : req.category.truthy = true) :
    (∃ tryCalls status body,
        (scrape W req).calls = tryCalls ++ [.respond status body] ++ W.cleanupCalls ∧
        (∀ c ∈ tryCalls, c.inTry = true) ∧
        (Call.newPage ∈ tryCalls ∧ W.newPage = .ok () ↔ W.opensPage = true) ∧
        (Call.puppeteerConnect ∈ tryCalls ∧ W.connect = .ok () ↔ W.connects = true)) ∧
      W.cleanupCalls =
        (if W.opensPage then [Call.pageClose] else []) ++
          (if W.connects then [Call.browserDisconnect] else []) ∧
      Call.browserClose ∉ (scrape W req).calls ∧
      (scrape W req).completion = .ok () ∧
      (scrape W req).responses =
        [responseOf (tryBlock W req.startUrl req.category Session.initial).2] ∧
      (∀ closeOutcome disconnectOutcome,
        scrape { W with pageClose := closeOutcome, disconnect := disconnectOutcome } req =
          scrape W req) := by
  obtain ⟨hcalls, hcompl⟩ := scrape_calls W req hs hc
  obtain ⟨-, -, hin⟩ := tryBlock_flags W req.startUrl req.category
  obtain ⟨hpc, hnp⟩ := tryBlock_session_calls W req.startUrl req.category
  refine ⟨⟨_, _, _, hcalls, hin, ?_, ?_⟩, rfl, ?_, hcompl, scrape_responses W req hs hc, ?_⟩
  · rw [hnp]
    unfold World.opensPage
    cases W.newPage <;> simp
  · rw [hpc]
    unfold World.connects
    cases W.connect <;> simp
  · rw [hcalls]
    intro hmem
    rcases List.mem_append.1 hmem with h | h
    · rcases List.mem_append.1 h with h | h
      · exact absurd (hin _ h) (by simp [Call.inTry])
      · simp at h
    · unfold World.cleanupCalls at h
      cases W.opensPage <;> cases W.connects <;> simp at h
  · intro closeOutcome disconnectOutcome
    obtain ⟨hcalls2, hcompl2⟩ := scrape_calls
      { W with pageClose := closeOutcome, disconnect := disconnectOutcome } req hs hc
    have hrun : ∀ a b : Run, a.calls = b.calls → a.completion = b.completion → a = b := by
      intro a b h1 h2
      cases a
      cases b
      simp_all
    apply hrun
    · rw [hcalls2, hcalls]
      rfl
    · rw [hcompl2, hcompl]

/-- C8, witness: in a world where closing the page fails, the run ends with the response, `page.close()` and `browser.disconnect()`. -/
theorem cleanup_always_runs_witness :
    villaRequest.startUrl.truthy = true ∧ villaRequest.category.truthy = true ∧
      Call.browserClose ∉ (scrape villaWorld villaRequest).calls ∧
      (scrape villaWorld villaRequest).completion = .ok () ∧
      (scrape villaWorld villaRequest).calls.drop 10 =
        [.respond 200 (.success (.str "real_estate")
            (.str "https://www.jamesedition.com/real_estate/villa-x-123456")
            (some "Villa X") none "2500000" []),
          .pageClose, .browserDisconnect] :=
  ⟨rfl, rfl, (cleanup_always_runs villaWorld villaRequest rfl rfl).2.2.1,
    (cleanup_always_runs villaWorld villaRequest rfl rfl).2.2.2.1, by decide⟩

/-- C9: the candidate list has no duplicates and its members are exactly the hrefs of the
page that pass the filter, compared as strings; discovery on its own output, or on the same
anchors in another order, gives the same set; the error "No listings found" is thrown
exactly when the list is empty, and is then the response of the request; three anchors, two
of them the same listing and one not matching, give one candidate. -/
theorem candidates_dedup (hrefs : List String) :
    (candidates hrefs).Nodup ∧
      (∀ h, h ∈ candidates hrefs ↔ h ∈ hrefs ∧ listingFilter h = true) ∧
      candidates (candidates hrefs) = candidates hrefs ∧
      (∀ other, other.Perm hrefs → (candidates other).Perm (candidates hrefs)) ∧
      (listingDiscovery hrefs = .error "No listings found" ↔ candidates hrefs = []) ∧
      (candidates hrefs ≠ [] → listingDiscovery hrefs = .ok (candidates hrefs)) ∧
      (∀ (W : World) (req : Request),
        ReachesDiscovery W req.startUrl hrefs →
        req.startUrl.truthy = true → req.category.truthy = true →
        candidates hrefs = [] →
        (scrape W req).responses = [(500, .failure "No listings found")]) ∧
      (∀ u x, listingFilter u = true → listingFilter x = false →
        candidates [u, u, x] = [u] ∧ candidates [u, x, u] = [u] ∧ candidates [x, u, u] = [u]) ∧
      (candidates ["https://www.jamesedition.com/real_estate/villa-x-123456",
        "https://example.com/about",
        "https://www.jamesedition.com/real_estate/villa-x-123456"]).length = 1 := by
  refine ⟨nodup_unique _, mem_candidates hrefs, candidates_candidates hrefs, ?_, ?_,
    listingDiscovery_ok hrefs, ?_, ?_, by decide⟩
  · intro other hperm
    apply (List.perm_ext_iff_of_nodup (nodup_unique (links other))
      (nodup_unique (links hrefs))).2
    intro h
    show h ∈ candidates other ↔ h ∈ candidates hrefs
    rw [mem_candidates, mem_candidates, hperm.mem_iff]
  · constructor
    · intro h
      by_contra hne
      rw [listingDiscovery_ok hrefs hne] at h
      simp at h
    · exact listingDiscovery_empty hrefs
  · intro W req hr hs hc he
    rw [scrape_responses W req hs hc,
      tryBlock_no_listings W req.startUrl req.category hrefs hr he]
    rfl
  · intro u x hu hx
    simp [candidates, links, unique, setAdd, hu, hx, List.filter]

/-- C9, witness: the three-anchor page has a duplicate-free candidate list, and a page without a listing anchor gives "No listings found". -/
theorem candidates_dedup_witness :
    (candidates ["https://www.jamesedition.com/real_estate/villa-x-123456",
        "https://example.com/about",
        "https://www.jamesedition.com/real_estate/villa-x-123456"]).Nodup ∧
      (scrape (worldWithCategory otherSitePage) villaRequest).responses =
        [(500, .failure "No listings found")] :=
  ⟨(candidates_dedup _).1,
    (candidates_dedup ["https://example.com/about"]).2.2.2.2.2.2.1
      (worldWithCategory otherSitePage) villaRequest
      ⟨rfl, rfl, otherSitePage, _, rfl, rfl, by decide, rfl⟩ rfl rfl (by decide)⟩

/-- C1, counterexample: a listing whose price element reads "Price on request" passes the
validation, and the request succeeds with status 200 and the empty string as `price`, which
does not match `/^\d+$/`. -/
theorem price_on_request_succeeds :
    (extract priceOnRequestDom).price = some "Price on request" ∧
      (scrape (worldWithListing (pageOf priceOnRequestDom)) villaRequest).responses =
        [(200, .success (.str "real_estate")
          (.str "https://www.jamesedition.com/real_estate/villa-x-123456")
          (some "Villa X") none "" [])] ∧
      ¬ isDigitString "" := by
  refine ⟨by decide, by decide, ?_⟩
  simp [isDigitString]

/-- C1, amended: a response carrying the success envelope has status 200 and comes from a
run that reached the normalizer; its `price` is the price value extracted from the listing
page, which is non-empty, with every character other than an ASCII digit removed, so it
consists of digits only and matches `/^\d+$/` exactly when the extracted value contains a
digit.  Conversely every run that reaches the normalizer with a title and a non-empty
extracted price succeeds with that digit string; for an extracted price without any digit
it succeeds with the empty string as `price`. -/
theorem success_price_digits (W : World) (req : Request) :
    (∀ (status : Nat) (category link : JsVal) (caption description : Option String)
        (price : String) (images : List String),
        (status, Body.success category link caption description price images) ∈
          (scrape W req).responses →
        status = 200 ∧
          ∃ url data raw, ReachesNormalizer W req.startUrl url data ∧
            data.price = some raw ∧ raw ≠ "" ∧
            price.data = raw.data.filter Char.isDigit ∧
            (∀ c ∈ price.data, c.isDigit = true) ∧
            (isDigitString price ↔ ∃ c ∈ raw.data, c.isDigit = true)) ∧
      (∀ (url : JsVal) (data : ExtractionResult) (raw : String),
        ReachesNormalizer W req.startUrl url data →
        req.startUrl.truthy = true → req.category.truthy = true →
        ¬ absent data.title → data.price = some raw → raw ≠ "" →
        ∃ link images price,
          (scrape W req).responses =
            [(200, .success req.category link data.title data.description price images)] ∧
          price.data = raw.data.filter Char.isDigit ∧
          ((∀ c ∈ raw.data, c.isDigit = false) → price = "")) := by
  constructor
  · intro status category link caption description price images h
    by_cases hv : req.startUrl.truthy = true ∧ req.category.truthy = true
    · obtain ⟨hs, hc⟩ := hv
      rw [scrape_responses W req hs hc, List.mem_singleton] at h
      cases hr : (tryBlock W req.startUrl req.category Session.initial).2 with
      | error e =>
        rw [hr] at h
        simp [responseOf] at h
      | ok body =>
        rw [hr] at h
        simp only [responseOf, Prod.mk.injEq] at h
        obtain ⟨hstatus, hbody⟩ := h
        obtain ⟨url, data, hreach, hn⟩ := tryBlock_reaches W req.startUrl req.category body hr
        have htp : truthy data.title = true ∧ truthy data.price = true := by
          by_contra hcon
          have : absent data.title ∨ absent data.price := by
            rw [← truthy_eq_false_iff, ← truthy_eq_false_iff]
            cases h1 : truthy data.title <;> cases h2 : truthy data.price <;> simp_all
          rw [(normalize_error_iff req.category url data).2 this] at hn
          simp at hn
        rw [normalize_ok req.category url data htp.1 htp.2] at hn
        obtain ⟨raw, hraw, hne⟩ := (truthy_iff _).1 htp.2
        have hprice : price.data = raw.data.filter Char.isDigit := by
          have hb : body = Body.success category link caption description price images :=
            hbody.symm
          rw [hb] at hn
          simp only [Except.ok.injEq, Body.success.injEq] at hn
          rw [← hn.2.2.2.2.1, hraw]
          simp [normalizePrice, jsString, replaceNonDigits_eq_filter]
        refine ⟨hstatus, url, data, raw, hreach, hraw, hne, hprice, ?_, ?_⟩
        · intro c hc
          rw [hprice] at hc
          exact (List.mem_filter.1 hc).2
        · unfold isDigitString
          rw [hprice]
          constructor
          · rintro ⟨hnil, -⟩
            obtain ⟨c, hc⟩ := List.exists_mem_of_ne_nil _ hnil
            exact ⟨c, (List.mem_filter.1 hc).1, (List.mem_filter.1 hc).2⟩
          · rintro ⟨c, hc, hd⟩
            refine ⟨List.ne_nil_of_mem (List.mem_filter.2 ⟨hc, hd⟩), ?_⟩
            intro x hx
            exact (List.mem_filter.1 hx).2
    · have hinv : req.startUrl.truthy = false ∨ req.category.truthy = false := by
        cases h1 : req.startUrl.truthy <;> cases h2 : req.category.truthy <;> simp_all
      rw [scrape_invalid W req hinv] at h
      simp [Run.responses] at h
  · intro url data raw hreach hs hc ht hraw hne
    rw [← truthy_eq_false_iff] at ht
    simp only [Bool.not_eq_false] at ht
    have hp : truthy data.price = true := by
      rw [hraw]
      simp [truthy, hne]
    refine ⟨websiteLink data.url url, imagesOf data.image, normalizePrice data.price, ?_, ?_, ?_⟩
    · rw [scrape_responses W req hs hc,
        tryBlock_normalize W req.startUrl req.category url data hreach,
        normalize_ok req.category url data ht hp]
      rfl
    · rw [hraw]
      simp [normalizePrice, jsString, replaceNonDigits_eq_filter]
    · intro hnone
      have hnil : raw.data.filter Char.isDigit = [] := by
        rw [List.filter_eq_nil_iff]
        intro c hc
        simp [hnone c hc]
      rw [hraw]
      simp [normalizePrice, jsString, replaceNonDigits_eq_filter, hnil]

/-- C1, witness: the successful run on the "Villa X" listing carries the price "2500000", the
digits of the extracted "€ 2,500,000". -/
theorem success_price_digits_witness :
    ((200, Body.success (.str "real_estate")
          (.str "https://www.jamesedition.com/real_estate/villa-x-123456")
          (some "Villa X") none "2500000" []) ∈
        (scrape villaWorld villaRequest).responses) ∧
      ∃ url data raw, ReachesNormalizer villaWorld villaRequest.startUrl url data ∧
        data.price = some raw ∧ raw ≠ "" ∧
        "2500000".data = raw.data.filter Char.isDigit ∧
        (∀ c ∈ "2500000".data, c.isDigit = true) ∧
        (isDigitString "2500000" ↔ ∃ c ∈ raw.data, c.isDigit = true) :=
  ⟨by decide,
    ((success_price_digits villaWorld villaRequest).1 200 (.str "real_estate")
      (.str "https://www.jamesedition.com/real_estate/villa-x-123456")
      (some "Villa X") none "2500000" [] (by decide)).2⟩

/-- C10, counterexample: for three candidates and the draw just below two thirds, which
lies in the interval of candidate 1, the binary64 product rounds up to 2 and candidate 2 is
selected; likewise for seven candidates and the draw just below four sevenths, which lies in
the interval of candidate 3, candidate 4 is selected. -/
theorem chosen_outside_interval :
    ((1 : ℚ) / 3 ≤ twoThirdsDraw.value ∧ twoThirdsDraw.value < ((1 : ℚ) + 1) / 3 ∧
        randomIndex twoThirdsDraw 3 = 2 ∧
        chosen ["a", "b", "c"] twoThirdsDraw = .str "c") ∧
      ((3 : ℚ) / 7 ≤ fourSeventhsDraw.value ∧ fourSeventhsDraw.value < ((3 : ℚ) + 1) / 7 ∧
        randomIndex fourSeventhsDraw 7 = 4 ∧
        chosen ["a", "b", "c", "d", "e", "f", "g"] fourSeventhsDraw = .str "e") := by
  refine ⟨⟨?_, ?_, by decide, by decide⟩, ⟨?_, ?_, by decide, by decide⟩⟩
  · norm_num [Draw.value, twoThirdsDraw]
  · norm_num [Draw.value, twoThirdsDraw]
  · norm_num [Draw.value, fourSeventhsDraw]
  · norm_num [Draw.value, fourSeventhsDraw]

/-- C10, amended: for a non-empty candidate list of length `N` and every draw `r`, the
selected index is below `N` and the chosen URL is a member of the list.  For `r` in the
interval of candidate `i` the selected candidate is `i` or `i + 1`, and it is `i + 1` exactly
when the exact product `r * N` needs more than 53 binary digits (`b ≥ 54` digits over
`2 ^ exp`) and lies within half a unit in the last place, `2 ^ (b - 53) / 2 ^ (exp + 1)`,
of `i + 1`.  When the exact product is a double (at most 53 binary digits, or a multiple of
`2 ^ (b - 53)`), candidate `i` is selected exactly for the draws of its interval, as for
`0.5 * 4`.  For `N = 1` the single candidate is selected. -/
theorem chosen_index_bounds (u : List String) (r : Draw) (hne : u ≠ [])
    (hlen : u.length < 2 ^ 32) :
    randomIndex r u.length < u.length ∧
      (∃ h, h ∈ u ∧ u[randomIndex r u.length]? = some h ∧ chosen u r = .str h) ∧
      (∀ i : Nat, ((i : ℚ) / u.length ≤ r.value ∧ r.value < ((i : ℚ) + 1) / u.length) →
        randomIndex r u.length = i ∨ randomIndex r u.length = i + 1) ∧
      (∀ i b : Nat, ((i : ℚ) / u.length ≤ r.value ∧ r.value < ((i : ℚ) + 1) / u.length) →
        2 ^ (b - 1) ≤ r.mant * u.length → r.mant * u.length < 2 ^ b →
        (randomIndex r u.length = i + 1 ↔
          (54 ≤ b ∧
            ((i : ℚ) + 1) - r.value * u.length ≤ (2 : ℚ) ^ (b - 53) / 2 ^ (r.exp + 1)))) ∧
      (∀ b : Nat, 2 ^ (b - 1) ≤ r.mant * u.length → r.mant * u.length < 2 ^ b →
        (b ≤ 53 ∨ 2 ^ (b - 53) ∣ r.mant * u.length) →
        ∀ i : Nat, randomIndex r u.length = i ↔
          ((i : ℚ) / u.length ≤ r.value ∧ r.value < ((i : ℚ) + 1) / u.length)) ∧
      (r.mant = 0 → randomIndex r u.length = 0) ∧
      (u.length = 1 → randomIndex r u.length = 0 ∧ ∀ h, u = [h] → chosen u r = .str h) ∧
      randomIndex halfDraw 4 = 2 ∧ randomIndex halfDraw 3 = 1 := by
  have hpos : 0 < u.length := List.length_pos.2 hne
  have hlt := randomIndex_lt r u.length hpos
  refine ⟨hlt, chosen_mem u r hne, ?_, ?_, ?_, ?_, ?_, by decide, by decide⟩
  · intro i hi
    have hfloor := (floor_eq_iff_interval r u.length i hpos).2 hi
    have hn : u.length < 2 ^ 53 := by
      have : (2 : Nat) ^ 32 ≤ 2 ^ 53 := by norm_num
      omega
    obtain ⟨h1, h2⟩ := randomIndex_bracket r u.length hn
    omega
  · intro i b hi hlo hhi
    have hfloor := (floor_eq_iff_interval r u.length i hpos).2 hi
    rw [randomIndex_succ_iff r u.length i b hlen hlo hhi hfloor, halfUlp_iff]
  · intro b hlo hhi hex i
    rw [randomIndex_of_dvd r u.length b hlo hhi hex]
    exact floor_eq_iff_interval r u.length i hpos
  · intro h0
    have hx : r.mant * u.length < 2 ^ 53 := by
      rw [h0]
      simp
    rw [randomIndex_exact r u.length hx, h0]
    simp
  · intro h1
    have h0 : randomIndex r u.length = 0 := by omega
    refine ⟨h0, ?_⟩
    intro h hu
    subst hu
    simp only [List.length_singleton] at h0
    simp [chosen, h0]

/-- C10, witness: for three candidates and the draw just below two thirds the selected index
is below three, and it is 2, the successor of the interval's candidate, the product having
54 binary digits and lying half a unit in the last place below 2. -/
theorem chosen_index_bounds_witness :
    ["a", "b", "c"] ≠ [] ∧ ["a", "b", "c"].length < 2 ^ 32 ∧
      randomIndex twoThirdsDraw ["a", "b", "c"].length < ["a", "b", "c"].length ∧
      (randomIndex twoThirdsDraw ["a", "b", "c"].length = 1 + 1 ↔
        (54 ≤ 54 ∧ ((1 : ℚ) + 1) - twoThirdsDraw.value * ["a", "b", "c"].length ≤
          (2 : ℚ) ^ (54 - 53) / 2 ^ (twoThirdsDraw.exp + 1))) :=
  ⟨by decide, by decide,
    (chosen_index_bounds ["a", "b", "c"] twoThirdsDraw (by decide) (by decide)).1,
    by
      have h := (chosen_index_bounds ["a", "b", "c"] twoThirdsDraw (by decide)
        (by decide)).2.2.2.1 1 54
        (by norm_num [Draw.value, twoThirdsDraw]) (by decide) (by decide)
      exact_mod_cast h⟩

end PuppeteerApi
